import Mathlib

set_option maxRecDepth 10000

/-!
Verification of the zyx-env repository: a symmetric-cipher wrapper
(`TopSecret`) plus an environment-configuration loading pipeline
(`loadEnvFile`, `loadEnvFiles`, `loadEncryptKey`, `createReadOnlyObject`,
`mergeIntoProcessEnv`).

Bytes are modelled as `List Nat` (each entry a byte value), JS strings as
Lean `String` (or `List Nat` of code points where the distinction between
byte sequences and text matters).  The AES-256 block permutation itself
lives in Node's `crypto` module, outside the repository; it is modelled as
an explicit pair of functions `E D : List Nat → List Nat → List Nat`
(key → block → block), with the inverse property taken as a hypothesis.
CBC chaining and PKCS#7 padding — the parts of `aes-256-cbc` that determine
the envelope layout — are modelled concretely.
-/

/-- Whitespace characters recognised by the JavaScript `\s` class and
`String.prototype.trim` (ASCII subset, which covers all inputs in scope). -/
def jsWsChar (c : Char) : Bool :=
  c == ' ' || c == '\t' || c == '\n' || c == '\r' ||
  c == Char.ofNat 11 || c == Char.ofNat 12

/-- Model of JavaScript `String.prototype.trim`. -/
def jsTrim (s : String) : String :=
  String.mk (((s.toList.dropWhile (jsWsChar ·)).reverse.dropWhile (jsWsChar ·)).reverse)

/-- Split a character list at every occurrence of the separator, like the
JavaScript `String.prototype.split` with a single-character separator. -/
def splitCharAux (sep : Char) : List Char → List Char → List (List Char)
  | [], acc => [acc.reverse]
  | c :: rest, acc =>
    if c = sep then acc.reverse :: splitCharAux sep rest []
    else splitCharAux sep rest (c :: acc)

/-- JavaScript `s.split(sep)` for a one-character separator. -/
def jsSplit (sep : Char) (s : String) : List String :=
  (splitCharAux sep s.toList []).map String.mk

/-- Numeric value of one hexadecimal digit, if the character is one. -/
def hexVal (c : Char) : Option Nat :=
  if '0' ≤ c ∧ c ≤ '9' then some (c.toNat - '0'.toNat)
  else if 'a' ≤ c ∧ c ≤ 'f' then some (c.toNat - 'a'.toNat + 10)
  else if 'A' ≤ c ∧ c ≤ 'F' then some (c.toNat - 'A'.toNat + 10)
  else none

/-- Model of Node's `Buffer.from(s, "hex")`: decode hex digit pairs from the
left and stop at the first character pair that is not two hex digits
(Node truncates instead of failing). -/
def hexDecodeAux : List Char → List Nat
  | a :: b :: rest =>
    match hexVal a, hexVal b with
    | some x, some y => (16 * x + y) :: hexDecodeAux rest
    | _, _ => []
  | _ => []

/-- Hex decoding of a string, Node `Buffer.from(·, "hex")` semantics. -/
def hexDecode (s : String) : List Nat := hexDecodeAux s.toList

/-- Bytewise XOR of two equal-length byte sequences. -/
def xorB (a b : List Nat) : List Nat := List.zipWith (· ^^^ ·) a b

/-- Fuel-driven worker for `toBlocks` (structural recursion so that concrete
inputs evaluate by `decide`). -/
def toBlocksAux : Nat → List Nat → List (List Nat)
  | 0, _ => []
  | _ + 1, [] => []
  | fuel + 1, b :: rest =>
    ((b :: rest).take 16) :: toBlocksAux fuel ((b :: rest).drop 16)

/-- Split a byte sequence into consecutive 16-byte blocks (the last block may
be shorter when the length is not a multiple of 16). -/
def toBlocks (l : List Nat) : List (List Nat) := toBlocksAux l.length l

theorem toBlocksAux_fuel_irrel :
    ∀ f1 f2 l, l.length ≤ f1 → l.length ≤ f2 →
      toBlocksAux f1 l = toBlocksAux f2 l := by
  intro f1
  induction f1 with
  | zero =>
    intro f2 l h1 h2
    have hl : l = [] := List.length_eq_zero.mp (Nat.le_zero.mp h1)
    subst hl
    cases f2 <;> rfl
  | succ f ih =>
    intro f2 l h1 h2
    cases l with
    | nil => cases f2 <;> rfl
    | cons b rest =>
      cases f2 with
      | zero => simp at h2
      | succ f2p =>
        simp only [toBlocksAux]
        congr 1
        apply ih
        · simp only [List.length_drop, List.length_cons] at h1 ⊢
          omega
        · simp only [List.length_drop, List.length_cons] at h2 ⊢
          omega

theorem toBlocks_eq (l : List Nat) :
    toBlocks l = if l = [] then [] else l.take 16 :: toBlocks (l.drop 16) := by
  cases l with
  | nil => rfl
  | cons b rest =>
    rw [if_neg (by simp)]
    show toBlocksAux (rest.length + 1) (b :: rest) = _
    simp only [toBlocksAux]
    congr 1
    apply toBlocksAux_fuel_irrel
    · simp only [List.length_drop, List.length_cons]
      omega
    · exact Nat.le_refl _

/-- Concatenate a block list back into one byte sequence. -/
def concatBlocks (bs : List (List Nat)) : List Nat :=
  bs.foldr (fun b acc => b ++ acc) []

/-- PKCS#7 padding at block size 16, as applied by Node's
`crypto.createCipheriv("aes-256-cbc", …)` before encryption. -/
def pkcs7pad (b : List Nat) : List Nat :=
  b ++ List.replicate (16 - b.length % 16) (16 - b.length % 16)

/-- PKCS#7 unpadding at block size 16: read the last byte `n`, require
`1 ≤ n ≤ 16`, require the last `n` bytes all equal to `n`, and drop them;
`none` models the "bad decrypt" padding error (the empty sequence yields
last byte `0`, hence also an error). -/
def pkcs7unpad (b : List Nat) : Option (List Nat) :=
  let n := b.getLastD 0
  if n = 0 ∨ 16 < n ∨ b.length < n then none
  else if (b.drop (b.length - n)).all (· = n) then some (b.take (b.length - n))
  else none

/-- CBC-mode encryption over 16-byte blocks: each block is XORed with the
previous ciphertext block (initially the IV) and passed through the block
cipher `E` under key `k`. -/
def cbcEncBlocks (E : List Nat → List Nat → List Nat) (k : List Nat) :
    List Nat → List (List Nat) → List (List Nat)
  | _, [] => []
  | prev, b :: bs =>
    let c := E k (xorB b prev)
    c :: cbcEncBlocks E k c bs

/-- CBC-mode decryption over 16-byte blocks: each ciphertext block is passed
through the inverse block cipher `D` and XORed with the previous ciphertext
block (initially the IV). -/
def cbcDecBlocks (D : List Nat → List Nat → List Nat) (k : List Nat) :
    List Nat → List (List Nat) → List (List Nat)
  | _, [] => []
  | prev, c :: cs => xorB (D k c) prev :: cbcDecBlocks D k c cs

/-- Full `aes-256-cbc` encryption as performed by Node's cipher object:
PKCS#7-pad the plaintext, then CBC-encrypt it block by block. -/
def aesCbcEncrypt (E : List Nat → List Nat → List Nat) (k iv pt : List Nat) :
    List Nat :=
  concatBlocks (cbcEncBlocks E k iv (toBlocks (pkcs7pad pt)))

/-- Full `aes-256-cbc` decryption as performed by Node's decipher object:
require the ciphertext length to be a multiple of the block size,
CBC-decrypt block by block, then strip and validate the PKCS#7 padding.
`none` models the decryption error thrown by `decipher.final()`. -/
def aesCbcDecrypt (D : List Nat → List Nat → List Nat) (k iv ct : List Nat) :
    Option (List Nat) :=
  if ct.length % 16 = 0 ∧ ct.length ≠ 0 then
    pkcs7unpad (concatBlocks (cbcDecBlocks D k iv (toBlocks ct)))
  else none

theorem mod16_lt (n : Nat) : n % 16 < 16 := Nat.mod_lt _ (by norm_num)

theorem pkcs7pad_length_mod (b : List Nat) : (pkcs7pad b).length % 16 = 0 := by
  have := mod16_lt b.length
  simp only [pkcs7pad, List.length_append, List.length_replicate]
  omega

theorem pkcs7pad_ne_nil (b : List Nat) : pkcs7pad b ≠ [] := by
  intro h
  have hl := congrArg List.length h
  have := mod16_lt b.length
  simp only [pkcs7pad, List.length_append, List.length_replicate,
    List.length_nil] at hl
  omega

theorem pkcs7unpad_pkcs7pad (b : List Nat) : pkcs7unpad (pkcs7pad b) = some b := by
  have hmod := mod16_lt b.length
  have hp : 0 < 16 - b.length % 16 := by omega
  have hsplit : pkcs7pad b =
      (b ++ List.replicate (16 - b.length % 16 - 1) (16 - b.length % 16)) ++
        [16 - b.length % 16] := by
    unfold pkcs7pad
    rw [List.append_assoc]
    congr 1
    obtain ⟨m, hm⟩ : ∃ m, 16 - b.length % 16 = m + 1 :=
      ⟨16 - b.length % 16 - 1, by omega⟩
    rw [hm, List.replicate_succ']
    simp
  have hlast : (pkcs7pad b).getLastD 0 = 16 - b.length % 16 := by
    rw [hsplit, List.getLastD_concat]
  have hlen : (pkcs7pad b).length = b.length + (16 - b.length % 16) := by
    simp [pkcs7pad]
  unfold pkcs7unpad
  simp only [hlast, hlen]
  rw [if_neg (by omega)]
  have hdrop : (pkcs7pad b).drop (b.length + (16 - b.length % 16) - (16 - b.length % 16)) =
      List.replicate (16 - b.length % 16) (16 - b.length % 16) := by
    have harith : b.length + (16 - b.length % 16) - (16 - b.length % 16) = b.length := by
      omega
    rw [harith]
    unfold pkcs7pad
    rw [List.drop_left]
  have htake : (pkcs7pad b).take (b.length + (16 - b.length % 16) - (16 - b.length % 16)) = b := by
    have harith : b.length + (16 - b.length % 16) - (16 - b.length % 16) = b.length := by
      omega
    rw [harith]
    unfold pkcs7pad
    rw [List.take_left]
  rw [hdrop, htake]
  rw [if_pos]
  simp [List.all_eq_true]

theorem concatBlocks_toBlocksAux :
    ∀ fuel l, l.length ≤ fuel → concatBlocks (toBlocksAux fuel l) = l := by
  intro fuel
  induction fuel with
  | zero =>
    intro l h
    have hl : l = [] := List.length_eq_zero.mp (Nat.le_zero.mp h)
    subst hl
    rfl
  | succ f ih =>
    intro l h
    cases l with
    | nil => rfl
    | cons b rest =>
      simp only [toBlocksAux, concatBlocks, List.foldr_cons]
      have hdrop : ((b :: rest).drop 16).length ≤ f := by
        simp only [List.length_drop, List.length_cons] at h ⊢
        omega
      have := ih ((b :: rest).drop 16) hdrop
      simp only [concatBlocks] at this
      rw [this, List.take_append_drop]

theorem concatBlocks_toBlocks (l : List Nat) : concatBlocks (toBlocks l) = l :=
  concatBlocks_toBlocksAux l.length l (Nat.le_refl _)

theorem toBlocks_concatBlocks (bs : List (List Nat))
    (h : ∀ b ∈ bs, b.length = 16) : toBlocks (concatBlocks bs) = bs := by
  induction bs with
  | nil => rfl
  | cons b rest ih =>
    have hb : b.length = 16 := h b (by simp)
    have hbne : b ≠ [] := by
      intro hh; rw [hh] at hb; simp at hb
    simp only [concatBlocks, List.foldr_cons]
    have hne : b ++ rest.foldr (fun b acc => b ++ acc) [] ≠ [] := by
      intro hh
      rcases List.append_eq_nil.mp hh with ⟨h1, _⟩
      exact hbne h1
    rw [toBlocks_eq, if_neg hne]
    have htake : (b ++ rest.foldr (fun b acc => b ++ acc) []).take 16 = b := by
      rw [← hb, List.take_left]
    have hdrop : (b ++ rest.foldr (fun b acc => b ++ acc) []).drop 16 = rest.foldr (fun b acc => b ++ acc) [] := by
      rw [← hb, List.drop_left]
    rw [htake, hdrop]
    have := ih (fun b hbmem => h b (by simp [hbmem]))
    simp only [concatBlocks] at this
    rw [this]

theorem xorB_xorB_cancel (a p : List Nat) (h : a.length = p.length) :
    xorB (xorB a p) p = a := by
  induction a generalizing p with
  | nil => simp [xorB]
  | cons x xs ih =>
    cases p with
    | nil => simp at h
    | cons y ys =>
      simp only [xorB, List.zipWith_cons_cons]
      rw [Nat.xor_cancel_right]
      have := ih ys (by simpa using h)
      simp only [xorB] at this
      rw [this]

theorem xorB_length (a b : List Nat) : (xorB a b).length = min a.length b.length := by
  simp [xorB]

theorem cbcDecBlocks_cbcEncBlocks
    (E D : List Nat → List Nat → List Nat) (k : List Nat)
    (hED : ∀ b, b.length = 16 → D k (E k b) = b ∧ (E k b).length = 16)
    (bs : List (List Nat)) (hbs : ∀ b ∈ bs, b.length = 16) :
    ∀ prev, prev.length = 16 →
      cbcDecBlocks D k prev (cbcEncBlocks E k prev bs) = bs := by
  induction bs with
  | nil => intro prev _; simp [cbcEncBlocks, cbcDecBlocks]
  | cons b rest ih =>
    intro prev hprev
    have hb : b.length = 16 := hbs b (by simp)
    have hxlen : (xorB b prev).length = 16 := by
      rw [xorB_length, hb, hprev]; simp
    obtain ⟨hinv, helen⟩ := hED (xorB b prev) hxlen
    simp only [cbcEncBlocks, cbcDecBlocks]
    have h1 : xorB (D k (E k (xorB b prev))) prev = b := by
      rw [hinv]
      exact xorB_xorB_cancel b prev (by rw [hb, hprev])
    rw [h1, ih (fun b hbmem => hbs b (by simp [hbmem])) _ helen]

theorem toBlocksAux_mem_length :
    ∀ fuel l, l.length ≤ fuel → l.length % 16 = 0 →
      ∀ b ∈ toBlocksAux fuel l, b.length = 16 := by
  intro fuel
  induction fuel with
  | zero =>
    intro l hf hl b hb
    have hnil : l = [] := List.length_eq_zero.mp (Nat.le_zero.mp hf)
    subst hnil
    simp [toBlocksAux] at hb
  | succ f ih =>
    intro l hf hl b hb
    cases l with
    | nil => simp [toBlocksAux] at hb
    | cons x rest =>
      simp only [toBlocksAux, List.mem_cons] at hb
      rcases hb with h | h
      · subst h
        simp only [List.length_take, List.length_cons]
        simp only [List.length_cons] at hl
        omega
      · refine ih ((x :: rest).drop 16) ?_ ?_ b h
        · simp only [List.length_drop, List.length_cons] at hf ⊢
          omega
        · simp only [List.length_drop, List.length_cons] at hl ⊢
          omega

theorem toBlocks_mem_length (l : List Nat) (hl : l.length % 16 = 0) :
    ∀ b ∈ toBlocks l, b.length = 16 :=
  toBlocksAux_mem_length l.length l (Nat.le_refl _) hl

theorem cbcEncBlocks_mem_length
    (E : List Nat → List Nat → List Nat) (k : List Nat)
    (hE : ∀ b, b.length = 16 → (E k b).length = 16)
    (bs : List (List Nat)) (hbs : ∀ b ∈ bs, b.length = 16) :
    ∀ prev, prev.length = 16 →
      ∀ c ∈ cbcEncBlocks E k prev bs, c.length = 16 := by
  induction bs with
  | nil => intro prev _ c hc; simp [cbcEncBlocks] at hc
  | cons b rest ih =>
    intro prev hprev c hc
    have hb : b.length = 16 := hbs b (by simp)
    have hxlen : (xorB b prev).length = 16 := by
      rw [xorB_length, hb, hprev]; simp
    have helen := hE _ hxlen
    simp only [cbcEncBlocks, List.mem_cons] at hc
    rcases hc with h | h
    · subst h; exact helen
    · exact ih (fun b hbmem => hbs b (by simp [hbmem])) _ helen c h

theorem cbcEncBlocks_length (E : List Nat → List Nat → List Nat) (k : List Nat)
    (bs : List (List Nat)) : ∀ prev, (cbcEncBlocks E k prev bs).length = bs.length := by
  induction bs with
  | nil => intro prev; simp [cbcEncBlocks]
  | cons b rest ih =>
    intro prev
    simp only [cbcEncBlocks, List.length_cons]
    rw [ih]

theorem concatBlocks_length_16 (bs : List (List Nat))
    (h : ∀ b ∈ bs, b.length = 16) : (concatBlocks bs).length = 16 * bs.length := by
  induction bs with
  | nil => simp [concatBlocks]
  | cons b rest ih =>
    simp only [concatBlocks, List.foldr_cons, List.length_append, List.length_cons]
    have hb : b.length = 16 := h b (by simp)
    have := ih (fun b hbmem => h b (by simp [hbmem]))
    simp only [concatBlocks] at this
    rw [hb, this]
    ring

/-- Round trip of the modelled `aes-256-cbc` layer: decryption inverts
encryption for every plaintext, key, and 16-byte IV, given a block cipher
pair `E`, `D` that is inverse on 16-byte blocks. -/
theorem aesCbcDecrypt_aesCbcEncrypt
    (E D : List Nat → List Nat → List Nat) (k iv pt : List Nat)
    (hED : ∀ b, b.length = 16 → D k (E k b) = b ∧ (E k b).length = 16)
    (hiv : iv.length = 16) :
    aesCbcDecrypt D k iv (aesCbcEncrypt E k iv pt) = some pt := by
  have hpadmod : (pkcs7pad pt).length % 16 = 0 := pkcs7pad_length_mod pt
  have hblocks : ∀ b ∈ toBlocks (pkcs7pad pt), b.length = 16 :=
    toBlocks_mem_length _ hpadmod
  have hencblocks : ∀ c ∈ cbcEncBlocks E k iv (toBlocks (pkcs7pad pt)), c.length = 16 :=
    cbcEncBlocks_mem_length E k (fun b hb => (hED b hb).2) _ hblocks iv hiv
  have hctlen : (concatBlocks (cbcEncBlocks E k iv (toBlocks (pkcs7pad pt)))).length =
      16 * (cbcEncBlocks E k iv (toBlocks (pkcs7pad pt))).length :=
    concatBlocks_length_16 _ hencblocks
  have henclen : (cbcEncBlocks E k iv (toBlocks (pkcs7pad pt))).length =
      (toBlocks (pkcs7pad pt)).length := cbcEncBlocks_length E k _ iv
  have hblocksne : toBlocks (pkcs7pad pt) ≠ [] := by
    intro h
    have hcb := congrArg concatBlocks h
    rw [concatBlocks_toBlocks] at hcb
    exact pkcs7pad_ne_nil pt (by simpa [concatBlocks] using hcb)
  unfold aesCbcDecrypt aesCbcEncrypt
  rw [if_pos]
  · rw [toBlocks_concatBlocks _ hencblocks]
    rw [cbcDecBlocks_cbcEncBlocks E D k hED _ hblocks iv hiv]
    rw [concatBlocks_toBlocks]
    exact pkcs7unpad_pkcs7pad pt
  · constructor
    · rw [hctlen]; omega
    · rw [hctlen, henclen]
      intro h
      have hz : (toBlocks (pkcs7pad pt)).length = 0 := by omega
      exact hblocksne (List.length_eq_zero.mp hz)

/-! ### UTF-8 text model

`decryptBuffer` in `index.js` ends with `decrypted.toString("utf-8")`,
converting the decrypted bytes into a JavaScript string.  Strings are
modelled as lists of Unicode code points; the conversion is the WHATWG
UTF-8 decoder used by Node's `Buffer.toString`, which replaces each
maximal invalid subsequence by U+FFFD. -/

/-- Continuation-byte test for UTF-8 (`0x80 ≤ b ≤ 0xBF`). -/
def utf8cont (b : Nat) : Bool := 0x80 ≤ b && b ≤ 0xBF

/-- Admissible second byte after a three-byte lead `b` (tightened ranges for
`0xE0` and `0xED` per the WHATWG UTF-8 decoder). -/
def utf8cont3 (b c : Nat) : Bool :=
  if b = 0xE0 then 0xA0 ≤ c && c ≤ 0xBF
  else if b = 0xED then 0x80 ≤ c && c ≤ 0x9F
  else utf8cont c

/-- Admissible second byte after a four-byte lead `b` (tightened ranges for
`0xF0` and `0xF4` per the WHATWG UTF-8 decoder). -/
def utf8cont4 (b c : Nat) : Bool :=
  if b = 0xF0 then 0x90 ≤ c && c ≤ 0xBF
  else if b = 0xF4 then 0x80 ≤ c && c ≤ 0x8F
  else utf8cont c

/-- Decode one code point from the WHATWG UTF-8 stream: given the first byte
`b` and the remaining bytes, return the produced code point (U+FFFD for an
invalid subsequence) and how many additional bytes were consumed. -/
def utf8DecodeOne (b : Nat) (rest : List Nat) : Nat × Nat :=
  if b < 0x80 then (b, 0)
  else if 0xC2 ≤ b ∧ b ≤ 0xDF then
    match rest with
    | [] => (0xFFFD, 0)
    | c :: _ =>
      if utf8cont c then ((b - 0xC0) * 64 + (c - 0x80), 1) else (0xFFFD, 0)
  else if 0xE0 ≤ b ∧ b ≤ 0xEF then
    match rest with
    | [] => (0xFFFD, 0)
    | c :: rest2 =>
      if utf8cont3 b c then
        match rest2 with
        | [] => (0xFFFD, 1)
        | d :: _ =>
          if utf8cont d then ((b - 0xE0) * 4096 + (c - 0x80) * 64 + (d - 0x80), 2)
          else (0xFFFD, 1)
      else (0xFFFD, 0)
  else if 0xF0 ≤ b ∧ b ≤ 0xF4 then
    match rest with
    | [] => (0xFFFD, 0)
    | c :: rest2 =>
      if utf8cont4 b c then
        match rest2 with
        | [] => (0xFFFD, 1)
        | d :: rest3 =>
          if utf8cont d then
            match rest3 with
            | [] => (0xFFFD, 2)
            | e :: _ =>
              if utf8cont e then
                ((b - 0xF0) * 262144 + (c - 0x80) * 4096 + (d - 0x80) * 64 + (e - 0x80), 3)
              else (0xFFFD, 2)
          else (0xFFFD, 1)
      else (0xFFFD, 0)
  else (0xFFFD, 0)

/-- Fuel-driven worker for `utf8ReplDecode` (structural recursion so that
concrete inputs evaluate by `decide`). -/
def utf8ReplDecodeAux : Nat → List Nat → List Nat
  | 0, _ => []
  | _ + 1, [] => []
  | fuel + 1, b :: rest =>
    (utf8DecodeOne b rest).1 ::
      utf8ReplDecodeAux fuel (rest.drop (utf8DecodeOne b rest).2)

/-- WHATWG UTF-8 decoding with U+FFFD replacement of invalid subsequences,
the semantics of Node's `buffer.toString("utf-8")`.  The result is the list
of code points of the produced JavaScript string. -/
def utf8ReplDecode (l : List Nat) : List Nat := utf8ReplDecodeAux l.length l

theorem utf8ReplDecodeAux_fuel_irrel :
    ∀ f1 f2 l, l.length ≤ f1 → l.length ≤ f2 →
      utf8ReplDecodeAux f1 l = utf8ReplDecodeAux f2 l := by
  intro f1
  induction f1 with
  | zero =>
    intro f2 l h1 h2
    have hl : l = [] := List.length_eq_zero.mp (Nat.le_zero.mp h1)
    subst hl
    cases f2 <;> rfl
  | succ f ih =>
    intro f2 l h1 h2
    cases l with
    | nil => cases f2 <;> rfl
    | cons b rest =>
      cases f2 with
      | zero => simp at h2
      | succ f2p =>
        simp only [utf8ReplDecodeAux]
        congr 1
        apply ih
        · simp only [List.length_drop, List.length_cons] at h1 ⊢
          omega
        · simp only [List.length_drop, List.length_cons] at h2 ⊢
          omega

theorem utf8ReplDecode_cons (b : Nat) (rest : List Nat) :
    utf8ReplDecode (b :: rest) =
      (utf8DecodeOne b rest).1 :: utf8ReplDecode (rest.drop (utf8DecodeOne b rest).2) := by
  show utf8ReplDecodeAux (rest.length + 1) (b :: rest) = _
  simp only [utf8ReplDecodeAux]
  congr 1
  apply utf8ReplDecodeAux_fuel_irrel
  · simp only [List.length_drop]
    omega
  · exact Nat.le_refl _

/-- UTF-8 encoding of one Unicode scalar value. -/
def utf8EncChar (cp : Nat) : List Nat :=
  if cp < 0x80 then [cp]
  else if cp < 0x800 then [0xC0 + cp / 64, 0x80 + cp % 64]
  else if cp < 0x10000 then
    [0xE0 + cp / 4096, 0x80 + cp / 64 % 64, 0x80 + cp % 64]
  else
    [0xF0 + cp / 262144, 0x80 + cp / 4096 % 64, 0x80 + cp / 64 % 64, 0x80 + cp % 64]

/-- UTF-8 encoding of a list of code points (the bytes JavaScript writes for
a string). -/
def utf8Encode : List Nat → List Nat
  | [] => []
  | cp :: cps => utf8EncChar cp ++ utf8Encode cps

/-- Well-formed Unicode scalar value: at most U+10FFFF and not a surrogate. -/
def WfScalar (cp : Nat) : Prop :=
  cp ≤ 0x10FFFF ∧ ¬(0xD800 ≤ cp ∧ cp ≤ 0xDFFF)

instance (cp : Nat) : Decidable (WfScalar cp) := by
  unfold WfScalar
  infer_instance

/-- A byte sequence is valid UTF-8 text exactly when it is the encoding of a
list of well-formed scalar values. -/
def ValidUtf8 (b : List Nat) : Prop :=
  ∃ cps, (∀ cp ∈ cps, WfScalar cp) ∧ utf8Encode cps = b

theorem utf8ReplDecode_encChar (cp : Nat) (h : WfScalar cp) (rest : List Nat) :
    utf8ReplDecode (utf8EncChar cp ++ rest) = cp :: utf8ReplDecode rest := by
  obtain ⟨hle, hsur⟩ := h
  by_cases h1 : cp < 0x80
  · have henc : utf8EncChar cp = [cp] := by
      unfold utf8EncChar; rw [if_pos h1]
    have hdec : utf8DecodeOne cp rest = (cp, 0) := by
      unfold utf8DecodeOne; rw [if_pos h1]
    rw [henc, List.cons_append, List.nil_append, utf8ReplDecode_cons, hdec]
    simp
  · by_cases h2 : cp < 0x800
    · have henc : utf8EncChar cp = [0xC0 + cp / 64, 0x80 + cp % 64] := by
        unfold utf8EncChar; rw [if_neg h1, if_pos h2]
      have hc : utf8cont (0x80 + cp % 64) = true := by
        simp only [utf8cont, Bool.and_eq_true, decide_eq_true_eq]; omega
      have hdec : utf8DecodeOne (0xC0 + cp / 64) ((0x80 + cp % 64) :: rest) = (cp, 1) := by
        simp only [utf8DecodeOne]
        rw [if_neg (by omega),
          if_pos (show 0xC2 ≤ 0xC0 + cp / 64 ∧ 0xC0 + cp / 64 ≤ 0xDF by omega),
          if_pos hc]
        congr 2
        omega
      rw [henc, List.cons_append, List.cons_append, List.nil_append,
        utf8ReplDecode_cons, hdec]
      simp
    · by_cases h3 : cp < 0x10000
      · have henc : utf8EncChar cp =
            [0xE0 + cp / 4096, 0x80 + cp / 64 % 64, 0x80 + cp % 64] := by
          unfold utf8EncChar; rw [if_neg h1, if_neg h2, if_pos h3]
        have hc3 : utf8cont3 (0xE0 + cp / 4096) (0x80 + cp / 64 % 64) = true := by
          simp only [utf8cont3, utf8cont]
          split
          · simp only [Bool.and_eq_true, decide_eq_true_eq]; omega
          · split
            · simp only [Bool.and_eq_true, decide_eq_true_eq]; omega
            · simp only [Bool.and_eq_true, decide_eq_true_eq]; omega
        have hc : utf8cont (0x80 + cp % 64) = true := by
          simp only [utf8cont, Bool.and_eq_true, decide_eq_true_eq]; omega
        have hdec : utf8DecodeOne (0xE0 + cp / 4096)
            ((0x80 + cp / 64 % 64) :: (0x80 + cp % 64) :: rest) = (cp, 2) := by
          simp only [utf8DecodeOne]
          rw [if_neg (by omega), if_neg (by omega),
            if_pos (show 0xE0 ≤ 0xE0 + cp / 4096 ∧ 0xE0 + cp / 4096 ≤ 0xEF by omega),
            if_pos hc3, if_pos hc]
          congr 2
          omega
        rw [henc, List.cons_append, List.cons_append, List.cons_append,
          List.nil_append, utf8ReplDecode_cons, hdec]
        simp
      · have henc : utf8EncChar cp =
            [0xF0 + cp / 262144, 0x80 + cp / 4096 % 64, 0x80 + cp / 64 % 64,
              0x80 + cp % 64] := by
          unfold utf8EncChar; rw [if_neg h1, if_neg h2, if_neg h3]
        have hc4 : utf8cont4 (0xF0 + cp / 262144) (0x80 + cp / 4096 % 64) = true := by
          simp only [utf8cont4, utf8cont]
          split
          · simp only [Bool.and_eq_true, decide_eq_true_eq]; omega
          · split
            · simp only [Bool.and_eq_true, decide_eq_true_eq]; omega
            · simp only [Bool.and_eq_true, decide_eq_true_eq]; omega
        have hcd : utf8cont (0x80 + cp / 64 % 64) = true := by
          simp only [utf8cont, Bool.and_eq_true, decide_eq_true_eq]; omega
        have hce : utf8cont (0x80 + cp % 64) = true := by
          simp only [utf8cont, Bool.and_eq_true, decide_eq_true_eq]; omega
        have hdec : utf8DecodeOne (0xF0 + cp / 262144)
            ((0x80 + cp / 4096 % 64) :: (0x80 + cp / 64 % 64) :: (0x80 + cp % 64) :: rest) =
            (cp, 3) := by
          simp only [utf8DecodeOne]
          rw [if_neg (by omega), if_neg (by omega), if_neg (by omega),
            if_pos (show 0xF0 ≤ 0xF0 + cp / 262144 ∧ 0xF0 + cp / 262144 ≤ 0xF4 by omega),
            if_pos hc4, if_pos hcd, if_pos hce]
          congr 2
          omega
        rw [henc, List.cons_append, List.cons_append, List.cons_append,
          List.cons_append, List.nil_append, utf8ReplDecode_cons, hdec]
        simp

/-- Decoding inverts encoding on well-formed text: converting the UTF-8 bytes
of a string back through the replacement decoder recovers the string. -/
theorem utf8ReplDecode_utf8Encode (cps : List Nat) (h : ∀ cp ∈ cps, WfScalar cp) :
    utf8ReplDecode (utf8Encode cps) = cps := by
  induction cps with
  | nil => rfl
  | cons cp rest ih =>
    simp only [utf8Encode]
    rw [utf8ReplDecode_encChar cp (h cp (by simp)) _,
      ih (fun c hc => h c (by simp [hc]))]

/-! ### The `TopSecret` cipher class (`index.js`)

State is the pair of instance fields `_key` / `_password`, both `null` in
the constructor.  Randomness (`crypto.randomBytes`) and the SHA-256 hash
are host-library effects and appear as explicit parameters. -/

/-- Hexadecimal digit character for a value below 16 (lowercase, as Node's
`buffer.toString("hex")` produces). -/
def hexDigit (n : Nat) : Char :=
  if n < 10 then Char.ofNat ('0'.toNat + n) else Char.ofNat ('a'.toNat + n - 10)

/-- Model of Node's `buffer.toString("hex")`. -/
def hexEncode (bytes : List Nat) : String :=
  String.mk (bytes.foldr (fun b acc => hexDigit (b / 16) :: hexDigit (b % 16) :: acc) [])

/-- Instance state of the `TopSecret` class: the `_key` and `_password`
fields, both `null` (`none`) after the constructor runs. -/
structure TopSecret where
  _key : Option (List Nat)
  _password : Option String
deriving DecidableEq

namespace TopSecret

/-- The `TopSecret` constructor: `this._key = null; this._password = null`. -/
def init : TopSecret := ⟨none, none⟩

/-- Method `generateKey()`: `this._key = crypto.randomBytes(32)` and the hex
encoding of the new key is returned.  The 32 random bytes drawn from the
host are an explicit argument.  Note the method does not touch
`this._password`. -/
def generateKey (ts : TopSecret) (randomBytes : List Nat) : TopSecret × String :=
  ({ ts with _key := some randomBytes }, hexEncode randomBytes)

/-- Setter `set key(value)`: accepts exactly the strings of length 64 and
stores `Buffer.from(value, "hex")`; otherwise throws
`"Key must be 64 bytes long."`.  Note the length test is on the string, not
on the decoded bytes, and `_password` is not touched. -/
def setKey (ts : TopSecret) (value : String) : Except String TopSecret :=
  if value.length = 64 then Except.ok { ts with _key := some (hexDecode value) }
  else Except.error "Key must be 64 bytes long."

/-- Setter `set password(value)`: rejects the empty string, records the
password and stores the SHA-256 digest of it as `_key`.  The digest function
is the host's `crypto.createHash("sha256")`, passed explicitly.  Both fields
are overwritten, so the previous state does not appear in the result. -/
def setPassword (sha256 : String → List Nat) (_ts : TopSecret) (value : String) :
    Except String TopSecret :=
  if value.length = 0 then Except.error "Password must be a non-empty string."
  else Except.ok { _key := some (sha256 value), _password := some value }

/-- Method `encryptBuffer(buffer)`: throws `"Key is not set."` when `_key` is
`null`, otherwise draws a fresh 16-byte IV (explicit argument here) and
returns `IV || aes-256-cbc ciphertext`. -/
def encryptBuffer (E : List Nat → List Nat → List Nat) (ts : TopSecret)
    (iv buffer : List Nat) : Except String (List Nat) :=
  match ts._key with
  | none => Except.error "Key is not set."
  | some k => Except.ok (iv ++ aesCbcEncrypt E k iv buffer)

/-- The byte-level part of `decryptBuffer(buffer)` (the `decrypted` local):
throws `"Key is not set."` when `_key` is `null`, splits the first 16 bytes
off as IV and deciphers the remainder; a length or padding failure is the
error thrown by `decipher.final()`. -/
def decryptBufferBytes (D : List Nat → List Nat → List Nat) (ts : TopSecret)
    (buffer : List Nat) : Except String (List Nat) :=
  match ts._key with
  | none => Except.error "Key is not set."
  | some k =>
    match aesCbcDecrypt D k (buffer.take 16) (buffer.drop 16) with
    | some pt => Except.ok pt
    | none => Except.error "bad decrypt"

/-- Method `decryptBuffer(buffer)`: the decrypted bytes converted by
`decrypted.toString("utf-8")`; the result is the code-point list of the
returned JavaScript string. -/
def decryptBuffer (D : List Nat → List Nat → List Nat) (ts : TopSecret)
    (buffer : List Nat) : Except String (List Nat) :=
  (decryptBufferBytes D ts buffer).map utf8ReplDecode

end TopSecret

/-- A trivial block-cipher pair (identity in the block argument) used to
instantiate concrete evaluations; it satisfies the inverse-pair hypothesis. -/
def idBlockCipher : List Nat → List Nat → List Nat := fun _ b => b

/-- C1 (amended): for every inverse block-cipher pair, key with password
state, 16-byte IV and plaintext byte sequence, decrypting the envelope
produced by `encryptBuffer` recovers exactly the plaintext bytes
(`decrypted` in the source), but the value `decryptBuffer` returns is that
byte sequence converted to a string by `toString("utf-8")`: it is the
UTF-8 replacement decoding of the plaintext, and therefore equals the
plaintext itself (as text) exactly on valid UTF-8 input — in particular
round-tripping any well-formed code-point sequence recovers it. -/
theorem decryptBuffer_encryptBuffer_roundtrip
    (E D : List Nat → List Nat → List Nat) (k iv buffer : List Nat)
    (pw : Option String)
    (hED : ∀ blk, blk.length = 16 → D k (E k blk) = blk ∧ (E k blk).length = 16)
    (hiv : iv.length = 16) :
    (TopSecret.encryptBuffer E ⟨some k, pw⟩ iv buffer).bind
        (TopSecret.decryptBufferBytes D ⟨some k, pw⟩) = Except.ok buffer ∧
    (TopSecret.encryptBuffer E ⟨some k, pw⟩ iv buffer).bind
        (TopSecret.decryptBuffer D ⟨some k, pw⟩) = Except.ok (utf8ReplDecode buffer) ∧
    ∀ cps, (∀ cp ∈ cps, WfScalar cp) →
      (TopSecret.encryptBuffer E ⟨some k, pw⟩ iv (utf8Encode cps)).bind
        (TopSecret.decryptBuffer D ⟨some k, pw⟩) = Except.ok cps := by
  have hcore : ∀ buf, TopSecret.decryptBufferBytes D ⟨some k, pw⟩
      (iv ++ aesCbcEncrypt E k iv buf) = Except.ok buf := by
    intro buf
    have ht : (iv ++ aesCbcEncrypt E k iv buf).take 16 = iv := by
      rw [← hiv]; exact List.take_left _ _
    have hd : (iv ++ aesCbcEncrypt E k iv buf).drop 16 = aesCbcEncrypt E k iv buf := by
      rw [← hiv]; exact List.drop_left _ _
    simp only [TopSecret.decryptBufferBytes]
    rw [ht, hd, aesCbcDecrypt_aesCbcEncrypt E D k iv buf hED hiv]
  refine ⟨hcore buffer, ?_, ?_⟩
  · have h2 : (TopSecret.encryptBuffer E ⟨some k, pw⟩ iv buffer).bind
        (TopSecret.decryptBuffer D ⟨some k, pw⟩) =
        (TopSecret.decryptBufferBytes D ⟨some k, pw⟩
          (iv ++ aesCbcEncrypt E k iv buffer)).map utf8ReplDecode := rfl
    rw [h2, hcore buffer]
    rfl
  · intro cps hcps
    have h2 : (TopSecret.encryptBuffer E ⟨some k, pw⟩ iv (utf8Encode cps)).bind
        (TopSecret.decryptBuffer D ⟨some k, pw⟩) =
        (TopSecret.decryptBufferBytes D ⟨some k, pw⟩
          (iv ++ aesCbcEncrypt E k iv (utf8Encode cps))).map utf8ReplDecode := rfl
    rw [h2, hcore (utf8Encode cps)]
    show Except.ok (utf8ReplDecode (utf8Encode cps)) = _
    rw [utf8ReplDecode_utf8Encode cps hcps]

/-- C1 counterexample: with a concrete inverse block-cipher pair, key, IV
and the one-byte plaintext `[0xFF]` (not valid UTF-8), the round trip
through `encryptBuffer` and `decryptBuffer` does not return the plaintext:
`toString("utf-8")` turns the decrypted byte `0xFF` into U+FFFD. -/
theorem decryptBuffer_roundtrip_counterexample :
    (TopSecret.encryptBuffer idBlockCipher ⟨some (List.replicate 32 0), none⟩
        (List.replicate 16 0) [0xFF]).bind
      (TopSecret.decryptBuffer idBlockCipher ⟨some (List.replicate 32 0), none⟩) ≠
      Except.ok [0xFF] ∧
    (TopSecret.encryptBuffer idBlockCipher ⟨some (List.replicate 32 0), none⟩
        (List.replicate 16 0) [0xFF]).bind
      (TopSecret.decryptBuffer idBlockCipher ⟨some (List.replicate 32 0), none⟩) =
      Except.ok [0xFFFD] := by
  have hval : (TopSecret.encryptBuffer idBlockCipher ⟨some (List.replicate 32 0), none⟩
        (List.replicate 16 0) [0xFF]).bind
      (TopSecret.decryptBuffer idBlockCipher ⟨some (List.replicate 32 0), none⟩) =
      Except.ok [0xFFFD] := by rfl
  refine ⟨?_, hval⟩
  rw [hval]
  intro h
  have hinj := Except.ok.inj h
  exact absurd hinj (by decide)

/-- Witness for the amended C1 theorem at a concrete cipher, key, IV and
inputs. -/
theorem decryptBuffer_encryptBuffer_roundtrip_witness :
    (TopSecret.encryptBuffer idBlockCipher ⟨some (List.replicate 32 0), none⟩
        (List.replicate 16 0) [0xFF]).bind
      (TopSecret.decryptBufferBytes idBlockCipher ⟨some (List.replicate 32 0), none⟩) =
      Except.ok [0xFF] ∧
    (TopSecret.encryptBuffer idBlockCipher ⟨some (List.replicate 32 0), none⟩
        (List.replicate 16 0) (utf8Encode [104, 233])).bind
      (TopSecret.decryptBuffer idBlockCipher ⟨some (List.replicate 32 0), none⟩) =
      Except.ok [104, 233] := by
  have h := decryptBuffer_encryptBuffer_roundtrip idBlockCipher idBlockCipher
    (List.replicate 32 0) (List.replicate 16 0) [0xFF] none
    (fun blk hb => ⟨rfl, hb⟩) (by decide)
  exact ⟨h.1, h.2.2 [104, 233] (by decide)⟩

/-- C2 counterexample: set a password, then set a 64-character hex key — the
previously set password is still recorded on the instance (`_password` is
`some "x"`, not `null`), so the two provenances are not mutually exclusive. -/
theorem setKey_after_setPassword_counterexample :
    ((TopSecret.setPassword (fun _ => List.replicate 32 1) TopSecret.init "x").bind
      (fun ts => TopSecret.setKey ts (String.mk (List.replicate 64 'a')))).map
        TopSecret._password = Except.ok (some "x") ∧
    (some "x" : Option String) ≠ none := by
  constructor
  · rfl
  · intro h
    cases h

/-- C2 (amended): key material always reflects the most recent operation,
and `set password` does discard a previous key (it overwrites `_key` with
the password-derived digest); but `set key` and `generateKey` leave a
previously recorded password in place — the provenances are not mutually
exclusive. -/
theorem key_password_update_characterization
    (sha256 : String → List Nat) (ts : TopSecret) (v : String) (rnd : List Nat) :
    (TopSecret.generateKey ts rnd).1 = ⟨some rnd, ts._password⟩ ∧
    (v.length = 64 →
      TopSecret.setKey ts v = Except.ok ⟨some (hexDecode v), ts._password⟩) ∧
    (v.length ≠ 0 →
      TopSecret.setPassword sha256 ts v = Except.ok ⟨some (sha256 v), some v⟩) := by
  refine ⟨rfl, ?_, ?_⟩
  · intro h
    simp [TopSecret.setKey, h]
  · intro h
    simp [TopSecret.setPassword, h]

/-- Witness for the amended C2 theorem at concrete hash, state and inputs. -/
theorem key_password_update_characterization_witness :
    (TopSecret.generateKey ⟨none, some "p"⟩ (List.replicate 32 2)).1 =
      ⟨some (List.replicate 32 2), some "p"⟩ ∧
    TopSecret.setKey ⟨none, some "p"⟩ (String.mk (List.replicate 64 'a')) =
      Except.ok ⟨some (hexDecode (String.mk (List.replicate 64 'a'))), some "p"⟩ ∧
    TopSecret.setPassword (fun _ => List.replicate 32 1) ⟨none, some "p"⟩ "q" =
      Except.ok ⟨some (List.replicate 32 1), some "q"⟩ := by
  have h := key_password_update_characterization (fun _ => List.replicate 32 1)
    ⟨none, some "p"⟩ (String.mk (List.replicate 64 'a')) (List.replicate 32 2)
  have h2 := key_password_update_characterization (fun _ => List.replicate 32 1)
    ⟨none, some "p"⟩ "q" (List.replicate 32 2)
  exact ⟨h.1, h.2.1 (by decide), h2.2.2 (by decide)⟩

theorem hexDecodeAux_length_all_hex :
    ∀ fuel l, l.length ≤ fuel → (∀ c ∈ l, (hexVal c).isSome) →
      (hexDecodeAux l).length = l.length / 2 := by
  intro fuel
  induction fuel with
  | zero =>
    intro l hf _
    have hl : l = [] := List.length_eq_zero.mp (Nat.le_zero.mp hf)
    subst hl
    rfl
  | succ f ih =>
    intro l hf hhex
    match l with
    | [] => rfl
    | [a] => simp [hexDecodeAux]
    | a :: b :: rest =>
      have hva := hhex a (by simp)
      have hvb := hhex b (by simp)
      obtain ⟨x, hx⟩ := Option.isSome_iff_exists.mp hva
      obtain ⟨y, hy⟩ := Option.isSome_iff_exists.mp hvb
      simp only [hexDecodeAux, hx, hy, List.length_cons]
      have hrest : (hexDecodeAux rest).length = rest.length / 2 := by
        refine ih rest ?_ (fun c hc => hhex c (by simp [hc]))
        simp only [List.length_cons] at hf
        omega
      rw [hrest]
      omega

/-- C6 counterexample: a 64-character string of non-hex characters is
accepted by `set key` (no `InvalidKeyLength` error), yet
`Buffer.from(value, "hex")` decodes it to zero bytes, so the installed key
material is not 32 bytes. -/
theorem setKey_accepts_nonhex_counterexample :
    TopSecret.setKey TopSecret.init (String.mk (List.replicate 64 'z')) =
      Except.ok ⟨some (hexDecode (String.mk (List.replicate 64 'z'))), none⟩ ∧
    (hexDecode (String.mk (List.replicate 64 'z'))).length = 0 := by
  constructor
  · rfl
  · rfl

/-- C6 (amended): `set key` fails with the key-length error exactly when the
string length differs from 64 (in particular for 63- and 65-character
strings); every 64-character string is accepted and installs
`Buffer.from(value, "hex")`, which is 32 bytes when the string consists of
hex digits, but shorter when it contains a non-hex character (Node truncates
at the first invalid digit pair). -/
theorem setKey_length_validation (ts : TopSecret) (s : String) :
    (s.length ≠ 64 →
      TopSecret.setKey ts s = Except.error "Key must be 64 bytes long.") ∧
    (s.length = 64 →
      TopSecret.setKey ts s = Except.ok ⟨some (hexDecode s), ts._password⟩) ∧
    (s.length = 64 → (∀ c ∈ s.toList, (hexVal c).isSome) →
      (hexDecode s).length = 32) := by
  refine ⟨?_, ?_, ?_⟩
  · intro h
    simp [TopSecret.setKey, h]
  · intro h
    simp [TopSecret.setKey, h]
  · intro h hhex
    have hlen : s.toList.length = 64 := h
    unfold hexDecode
    rw [hexDecodeAux_length_all_hex s.toList.length s.toList (Nat.le_refl _) hhex, hlen]

/-- Witness for the amended C6 theorem at 63- and 64-character inputs. -/
theorem setKey_length_validation_witness :
    TopSecret.setKey TopSecret.init (String.mk (List.replicate 63 'a')) =
      Except.error "Key must be 64 bytes long." ∧
    TopSecret.setKey TopSecret.init (String.mk (List.replicate 64 'a')) =
      Except.ok ⟨some (hexDecode (String.mk (List.replicate 64 'a'))), none⟩ ∧
    (hexDecode (String.mk (List.replicate 64 'a'))).length = 32 := by
  have h63 := setKey_length_validation TopSecret.init (String.mk (List.replicate 63 'a'))
  have h64 := setKey_length_validation TopSecret.init (String.mk (List.replicate 64 'a'))
  exact ⟨h63.1 (by decide), h64.2.1 (by decide), h64.2.2 (by decide) (by decide)⟩

/-! ### Environment parsing in `decryptEnvFromFile` and the file variants -/

/-- Convert a code-point list (a JavaScript string value) to a Lean string. -/
def cpsToString (cps : List Nat) : String := String.mk (cps.map Char.ofNat)

/-- Per-line behaviour of `decryptEnvFromFile`: skip blank lines, run
`const [name, value] = line.split("=")` (keeping only the first two
segments), and produce an assignment only when both `name` and `value` are
non-empty, trimming both. -/
def decryptEnvLineAssign (line : String) : Option (String × String) :=
  if jsTrim line = "" then none
  else
    match jsSplit '=' line with
    | name :: value :: _ =>
      if name ≠ "" ∧ value ≠ "" then some (jsTrim name, jsTrim value) else none
    | _ => none

/-- The ordered list of `process.env` assignments `decryptEnvFromFile`
performs for a decrypted text: split on newlines and apply the per-line
rule. -/
def envAssignments (text : String) : List (String × String) :=
  (jsSplit '\n' text).filterMap decryptEnvLineAssign

/-- Apply the assignments to the process environment table, in order (later
assignments overwrite earlier ones). -/
def applyEnvAssignments (assigns : List (String × String))
    (env : String → Option String) : String → Option String :=
  assigns.foldl (fun e kv => fun n => if n = kv.1 then some kv.2 else e n) env

namespace TopSecret

/-- Model of `fs.readFileSync`: the filesystem is a partial map from
filenames to byte contents; a missing file is a read error. -/
def readFileSync (fs : String → Option (List Nat)) (filename : String) :
    Except String (List Nat) :=
  match fs filename with
  | some content => Except.ok content
  | none => Except.error "ENOENT: no such file or directory"

/-- Method `encryptFile(srcFilename, dstFilename)`: read, encrypt, write,
all inside `try … catch`; any failure (including a missing key) is
re-thrown as `"Failed to encrypt file."`.  On success the result is the
destination filename with the bytes written there. -/
def encryptFile (E : List Nat → List Nat → List Nat) (ts : TopSecret)
    (iv : List Nat) (fs : String → Option (List Nat))
    (srcFilename dstFilename : String) : Except String (String × List Nat) :=
  match (readFileSync fs srcFilename).bind
      (fun buffer => (encryptBuffer E ts iv buffer).map (fun enc => (dstFilename, enc))) with
  | Except.ok r => Except.ok r
  | Except.error _ => Except.error "Failed to encrypt file."

/-- Method `decryptFile(srcFilename, dstFilename)`: read, decrypt, write the
decrypted *string* (so the bytes written are its UTF-8 encoding), all
inside `try … catch`; any failure is re-thrown as
`"Failed to decrypt file."`. -/
def decryptFile (D : List Nat → List Nat → List Nat) (ts : TopSecret)
    (fs : String → Option (List Nat)) (srcFilename dstFilename : String) :
    Except String (String × List Nat) :=
  match (readFileSync fs srcFilename).bind
      (fun buffer => (decryptBuffer D ts buffer).map
        (fun s => (dstFilename, utf8Encode s))) with
  | Except.ok r => Except.ok r
  | Except.error _ => Except.error "Failed to decrypt file."

/-- Method `decryptBufferFromFile(filename)` (the second definition in the
class body, which overrides the first): read and decrypt inside
`try … catch`; any failure is re-thrown as
`"Failed to load buffer from file."`. -/
def decryptBufferFromFile (D : List Nat → List Nat → List Nat) (ts : TopSecret)
    (fs : String → Option (List Nat)) (filename : String) :
    Except String (List Nat) :=
  match (readFileSync fs filename).bind (decryptBuffer D ts) with
  | Except.ok r => Except.ok r
  | Except.error _ => Except.error "Failed to load buffer from file."

/-- Method `decryptEnvFromFile(filename)`: the key check happens *before*
the `try` block, so a missing key surfaces as `"Key is not set."`; inside
the `try`, the file is read, decrypted, split into lines and assigned into
`process.env`, and any failure is re-thrown as
`"Failed to decrypt and load environment variables."`. -/
def decryptEnvFromFile (D : List Nat → List Nat → List Nat) (ts : TopSecret)
    (fs : String → Option (List Nat)) (filename : String)
    (env : String → Option String) : Except String (String → Option String) :=
  match ts._key with
  | none => Except.error "Key is not set."
  | some _ =>
    match (readFileSync fs filename).bind (decryptBuffer D ts) with
    | Except.ok cps =>
      Except.ok (applyEnvAssignments (envAssignments (cpsToString cps)) env)
    | Except.error _ =>
      Except.error "Failed to decrypt and load environment variables."

end TopSecret

/-- C5 counterexample: calling `encryptFile` on an instance with no key set
(and an existing source file) fails, but the error the caller observes is
the coarse `"Failed to encrypt file."` wrapper, not `"Key is not set."` —
the `try … catch` swallows the `KeyNotSet` error. -/
theorem encryptFile_keyNotSet_counterexample :
    TopSecret.encryptFile idBlockCipher TopSecret.init (List.replicate 16 0)
      (fun f => if f = "a.txt" then some [1, 2, 3] else none) "a.txt" "b.txt" =
      Except.error "Failed to encrypt file." ∧
    (Except.error "Failed to encrypt file." : Except String (String × List Nat)) ≠
      Except.error "Key is not set." := by
  constructor
  · rfl
  · intro h
    have hinj := Except.error.inj h
    exact absurd hinj (by decide)

/-- C5 (amended): with no key material present, the operations that guard
explicitly — `encryptBuffer`, `decryptBuffer`, and `decryptEnvFromFile`
(whose key check sits before its `try` block) — fail with
`"Key is not set."` and that is what the caller observes; the `try … catch`
file variants `encryptFile`, `decryptFile` and `decryptBufferFromFile`
catch the underlying failure, and the caller observes the coarse per-method
file error instead. -/
theorem keyNotSet_error_surface
    (E D : List Nat → List Nat → List Nat) (iv buffer : List Nat)
    (fs : String → Option (List Nat)) (src dst fn : String)
    (env : String → Option String) (pw : Option String) :
    TopSecret.encryptBuffer E ⟨none, pw⟩ iv buffer =
      Except.error "Key is not set." ∧
    TopSecret.decryptBuffer D ⟨none, pw⟩ buffer =
      Except.error "Key is not set." ∧
    TopSecret.decryptEnvFromFile D ⟨none, pw⟩ fs fn env =
      Except.error "Key is not set." ∧
    TopSecret.encryptFile E ⟨none, pw⟩ iv fs src dst =
      Except.error "Failed to encrypt file." ∧
    TopSecret.decryptFile D ⟨none, pw⟩ fs src dst =
      Except.error "Failed to decrypt file." ∧
    TopSecret.decryptBufferFromFile D ⟨none, pw⟩ fs fn =
      Except.error "Failed to load buffer from file." := by
  refine ⟨rfl, rfl, rfl, ?_, ?_, ?_⟩
  · unfold TopSecret.encryptFile TopSecret.readFileSync
    cases fs src <;> rfl
  · unfold TopSecret.decryptFile TopSecret.readFileSync
    cases fs src <;> rfl
  · unfold TopSecret.decryptBufferFromFile TopSecret.readFileSync
    cases fs fn <;> rfl

theorem splitCharAux_append_sep (sep : Char) :
    ∀ a : List Char, sep ∉ a → ∀ b acc, splitCharAux sep (a ++ sep :: b) acc =
      (acc.reverse ++ a) :: splitCharAux sep b [] := by
  intro a
  induction a with
  | nil =>
    intro _ b acc
    simp [splitCharAux]
  | cons c a2 ih =>
    intro ha b acc
    have hc : c ≠ sep := by
      intro h
      exact ha (by simp [h])
    have ha2 : sep ∉ a2 := by
      intro h
      exact ha (by simp [h])
    simp only [List.cons_append, splitCharAux, if_neg hc, List.append_eq]
    rw [ih ha2 b (c :: acc)]
    simp

theorem jsSplit_eq_cons (sep : Char) (s n rest : String) (hn : sep ∉ n.toList)
    (hs : s.toList = n.toList ++ sep :: rest.toList) :
    jsSplit sep s = n :: jsSplit sep rest := by
  unfold jsSplit
  rw [hs, splitCharAux_append_sep sep n.toList hn rest.toList []]
  simp only [List.reverse_nil, List.nil_append, List.map_cons]
  rfl

theorem splitCharAux_no_sep (sep : Char) :
    ∀ l : List Char, sep ∉ l → ∀ acc, splitCharAux sep l acc = [acc.reverse ++ l] := by
  intro l
  induction l with
  | nil =>
    intro _ acc
    simp [splitCharAux]
  | cons c l2 ih =>
    intro hl acc
    have hc : c ≠ sep := by
      intro h
      exact hl (by simp [h])
    have hl2 : sep ∉ l2 := by
      intro h
      exact hl (by simp [h])
    simp only [splitCharAux, if_neg hc]
    rw [ih hl2 (c :: acc)]
    simp

theorem jsSplit_no_sep (sep : Char) (s : String) (hs : sep ∉ s.toList) :
    jsSplit sep s = [s] := by
  unfold jsSplit
  rw [splitCharAux_no_sep sep s.toList hs []]
  simp only [List.reverse_nil, List.nil_append, List.map_cons, List.map_nil]
  rfl

theorem jsTrim_ne_empty_of_mem (s : String) (c : Char) (hc : c ∈ s.toList)
    (hws : jsWsChar c = false) : jsTrim s ≠ "" := by
  intro h
  unfold jsTrim at h
  have hl : ((s.toList.dropWhile (jsWsChar ·)).reverse.dropWhile (jsWsChar ·)).reverse = [] := by
    have hdata := congrArg String.data h
    simpa using hdata
  rw [List.reverse_eq_nil_iff, List.dropWhile_eq_nil_iff] at hl
  have hcd : c ∈ s.toList.dropWhile (jsWsChar ·) := by
    have hsplit2 : c ∈ s.toList.takeWhile (jsWsChar ·) ++ s.toList.dropWhile (jsWsChar ·) := by
      rw [List.takeWhile_append_dropWhile]
      exact hc
    rcases List.mem_append.mp hsplit2 with h1 | h2
    · have := List.mem_takeWhile_imp h1
      simp only [hws] at this
      cases this
    · exact h2
  have hcw := hl c (List.mem_reverse.mpr hcd)
  simp only [hws] at hcw
  cases hcw

/-- C3 counterexample: for the decrypted line `A=b=c`, `decryptEnvFromFile`
assigns the value `b` to `A`, not the entire remainder `b=c` after the
first `=` — `line.split("=")` destructured into `[name, value]` keeps only
the first two segments. -/
theorem decryptEnv_value_counterexample :
    envAssignments "A=b=c" = [("A", "b")] ∧ ("b" : String) ≠ "b=c" := by
  constructor
  · rfl
  · decide

/-- C3 (amended): `decryptEnvFromFile` splits the decrypted text into lines
and skips blank lines; each line is split at *every* `=` and only the first
two segments are kept, so a line `n=v=w` assigns the trimmed `v` (not
`v=w`) to the trimmed `n`; a line in which either of the first two segments
is empty or missing — a line without `=` such as `FOO`, a line with an
empty name such as `=b`, or a line with an empty value such as `A=` — is
silently skipped and causes no failure. -/
theorem decryptEnv_line_split_characterization :
    (∀ line, jsTrim line = "" → decryptEnvLineAssign line = none) ∧
    (∀ n v w : String, '=' ∉ n.toList → '=' ∉ v.toList → n ≠ "" → v ≠ "" →
      decryptEnvLineAssign (n ++ "=" ++ v ++ "=" ++ w) =
        some (jsTrim n, jsTrim v)) ∧
    (∀ n v : String, '=' ∉ n.toList → '=' ∉ v.toList → n ≠ "" → v ≠ "" →
      decryptEnvLineAssign (n ++ "=" ++ v) = some (jsTrim n, jsTrim v)) ∧
    (∀ line, '=' ∉ line.toList → decryptEnvLineAssign line = none) ∧
    (∀ rest : String, decryptEnvLineAssign ("=" ++ rest) = none) ∧
    (∀ n : String, '=' ∉ n.toList → decryptEnvLineAssign (n ++ "=") = none) ∧
    (∀ text, envAssignments text =
      (jsSplit '\n' text).filterMap decryptEnvLineAssign) := by
  refine ⟨?_, ?_, ?_, ?_, ?_, ?_, fun _ => rfl⟩
  · intro line hblank
    unfold decryptEnvLineAssign
    rw [if_pos hblank]
  · intro n v w hn hv hne hve
    have hdata1 : (n ++ "=" ++ v ++ "=" ++ w).toList =
        n.toList ++ '=' :: (v ++ "=" ++ w).toList := by
      show (n ++ "=" ++ v ++ "=" ++ w).data = n.data ++ '=' :: (v ++ "=" ++ w).data
      simp [String.data_append]
    have hdata2 : (v ++ "=" ++ w).toList = v.toList ++ '=' :: w.toList := by
      show (v ++ "=" ++ w).data = v.data ++ '=' :: w.data
      simp [String.data_append]
    have hsplit := jsSplit_eq_cons '=' (n ++ "=" ++ v ++ "=" ++ w) n (v ++ "=" ++ w)
      hn hdata1
    have hsplit2 := jsSplit_eq_cons '=' (v ++ "=" ++ w) v w hv hdata2
    have hmem : '=' ∈ (n ++ "=" ++ v ++ "=" ++ w).toList := by
      rw [hdata1]
      simp
    have hblank := jsTrim_ne_empty_of_mem _ '=' hmem (by decide)
    unfold decryptEnvLineAssign
    rw [if_neg hblank, hsplit, hsplit2]
    show (if n ≠ "" ∧ v ≠ "" then some (jsTrim n, jsTrim v) else none) =
      some (jsTrim n, jsTrim v)
    rw [if_pos ⟨hne, hve⟩]
  · intro n v hn hv hne hve
    have hdata1 : (n ++ "=" ++ v).toList = n.toList ++ '=' :: v.toList := by
      show (n ++ "=" ++ v).data = n.data ++ '=' :: v.data
      simp [String.data_append]
    have hsplit := jsSplit_eq_cons '=' (n ++ "=" ++ v) n v hn hdata1
    have hmem : '=' ∈ (n ++ "=" ++ v).toList := by
      rw [hdata1]
      simp
    have hblank := jsTrim_ne_empty_of_mem _ '=' hmem (by decide)
    unfold decryptEnvLineAssign
    rw [if_neg hblank, hsplit, jsSplit_no_sep '=' v hv]
    show (if n ≠ "" ∧ v ≠ "" then some (jsTrim n, jsTrim v) else none) =
      some (jsTrim n, jsTrim v)
    rw [if_pos ⟨hne, hve⟩]
  · intro line hline
    unfold decryptEnvLineAssign
    by_cases hb : jsTrim line = ""
    · rw [if_pos hb]
    · rw [if_neg hb, jsSplit_no_sep '=' line hline]
  · intro rest
    unfold decryptEnvLineAssign
    by_cases hb : jsTrim ("=" ++ rest) = ""
    · rw [if_pos hb]
    · rw [if_neg hb]
      have hs : ("=" ++ rest).toList = "".toList ++ '=' :: rest.toList := by
        show ("=" ++ rest).data = "".data ++ '=' :: rest.data
        simp [String.data_append]
      rw [jsSplit_eq_cons '=' ("=" ++ rest) "" rest (by decide) hs]
      cases jsSplit '=' rest with
      | nil => rfl
      | cons v0 vrest =>
        show (if ("" : String) ≠ "" ∧ v0 ≠ ""
          then some (jsTrim "", jsTrim v0) else none) = none
        rw [if_neg (by simp)]
  · intro n hn
    unfold decryptEnvLineAssign
    by_cases hb : jsTrim (n ++ "=") = ""
    · rw [if_pos hb]
    · rw [if_neg hb]
      have hs : (n ++ "=").toList = n.toList ++ '=' :: "".toList := by
        show (n ++ "=").data = n.data ++ '=' :: "".data
        simp [String.data_append]
      rw [jsSplit_eq_cons '=' (n ++ "=") n "" hn hs]
      show (if n ≠ "" ∧ ("" : String) ≠ ""
        then some (jsTrim n, jsTrim "") else none) = none
      rw [if_neg (by simp)]

/-- Witness for the amended C3 theorem at concrete lines, including the
skipped malformed shapes `FOO`, `=b` and `A=`. -/
theorem decryptEnv_line_split_characterization_witness :
    decryptEnvLineAssign " " = none ∧
    decryptEnvLineAssign "A=b=c" = some ("A", "b") ∧
    decryptEnvLineAssign "PORT=8080" = some ("PORT", "8080") ∧
    decryptEnvLineAssign "FOO" = none ∧
    decryptEnvLineAssign "=b" = none ∧
    decryptEnvLineAssign "A=" = none := by
  have h := decryptEnv_line_split_characterization
  refine ⟨h.1 " " (by decide), ?_, ?_, ?_, ?_, ?_⟩
  · exact h.2.1 "A" "b" "c" (by decide) (by decide) (by decide) (by decide)
  · exact h.2.2.1 "PORT" "8080" (by decide) (by decide) (by decide) (by decide)
  · exact h.2.2.2.1 "FOO" (by decide)
  · exact h.2.2.2.2.1 "b"
  · exact h.2.2.2.2.2.1 "A" (by decide)

/-! ### The `loadEnvFile` line parser (`loadEnvFile.js` with `isJsonLike.js`)

`coercePrimitive` comes from the external `zyx-system` package and
`JSON.parse` is a JavaScript builtin; both are modelled from the spec's
description (strict JSON parse; `true`/`false` to boolean, numeric
literals to number, everything else left a string). -/

/-- Split on the separator regex `/\r?\n/`: a newline optionally preceded
by a carriage return ends each line. -/
def splitLinesAux : List Char → List Char → List (List Char)
  | [], acc => [acc.reverse]
  | '\r' :: '\n' :: rest, acc => acc.reverse :: splitLinesAux rest []
  | '\n' :: rest, acc => acc.reverse :: splitLinesAux rest []
  | c :: rest, acc => splitLinesAux rest (c :: acc)

/-- JavaScript `raw.split(/\r?\n/)`. -/
def jsSplitLines (s : String) : List String :=
  (splitLinesAux s.toList []).map String.mk

/-- Whether the first non-whitespace character of the list is `#`
(the lookahead used when erasing an inline comment). -/
def isHashAfterWs (cs : List Char) : Bool :=
  match cs.dropWhile (jsWsChar ·) with
  | '#' :: _ => true
  | _ => false

/-- JavaScript `value.replace(/\s+#.*$/, "")`: cut the line at the leftmost
whitespace run that is followed by `#`. -/
def stripInlineComment : List Char → List Char
  | [] => []
  | c :: cs =>
    if jsWsChar c && isHashAfterWs cs then [] else c :: stripInlineComment cs

/-- String wrapper for `stripInlineComment`. -/
def stripInlineCommentStr (s : String) : String :=
  String.mk (stripInlineComment s.toList)

/-- First character of a string equals `c`. -/
def strStartsWith (s : String) (c : Char) : Bool :=
  match s.toList with
  | d :: _ => d = c
  | [] => false

/-- Last character of a string equals `c`. -/
def strEndsWith (s : String) (c : Char) : Bool :=
  match s.toList.getLast? with
  | some d => d = c
  | none => false

/-- `isJsonLike` from `isJsonLike.js`: the trimmed value starts with `[` and
ends with `]`, or starts with `{` and ends with `}`. -/
def isJsonLike (value : String) : Bool :=
  (strStartsWith (jsTrim value) '[' && strEndsWith (jsTrim value) ']') ||
  (strStartsWith (jsTrim value) '{' && strEndsWith (jsTrim value) '}')

/-- JSON values as produced by `JSON.parse` (numbers as rationals). -/
inductive Json where
  | jnull : Json
  | jbool : Bool → Json
  | jnum : Rat → Json
  | jstr : String → Json
  | jarr : List Json → Json
  | jobj : List (String × Json) → Json

/-- JSON whitespace. -/
def jsonWs (c : Char) : Bool := c = ' ' || c = '\t' || c = '\n' || c = '\r'

/-- Skip JSON whitespace. -/
def skipWs (l : List Char) : List Char := l.dropWhile (jsonWs ·)

/-- Decimal digit test. -/
def isDigitChar (c : Char) : Bool := '0' ≤ c && c ≤ '9'

/-- Value of a decimal digit string. -/
def digitsToNat (ds : List Char) : Nat :=
  ds.foldl (fun acc d => acc * 10 + (d.toNat - '0'.toNat)) 0

/-- Modelled from the spec: the numeric-literal part of the strict JSON
grammar as the spec's coercion description uses it — an optional minus,
integer digits, and an optional decimal fraction (exponents are outside
every behaviour the spec exercises). -/
def parseJsonNum (l : List Char) : Option (Json × List Char) :=
  let neg := match l with
    | '-' :: _ => true
    | _ => false
  let l1 := if neg then l.tail else l
  let intDigits := l1.takeWhile (isDigitChar ·)
  let l2 := l1.dropWhile (isDigitChar ·)
  if intDigits = [] then none
  else
    let intPart : Rat := (digitsToNat intDigits : Nat)
    match l2 with
    | '.' :: l3 =>
      let fracDigits := l3.takeWhile (isDigitChar ·)
      let l4 := l3.dropWhile (isDigitChar ·)
      if fracDigits = [] then none
      else
        let q : Rat := intPart +
          (digitsToNat fracDigits : Nat) / ((10 : Rat) ^ fracDigits.length)
        some (Json.jnum (if neg then -q else q), l4)
    | _ => some (Json.jnum (if neg then -intPart else intPart), l2)

mutual

/-- Modelled from the spec: strict `JSON.parse`, value grammar (fuel-driven
recursive-descent; the fuel argument only bounds recursion depth). -/
def parseJsonVal : Nat → List Char → Option (Json × List Char)
  | 0, _ => none
  | fuel + 1, l =>
    match skipWs l with
    | 'n' :: 'u' :: 'l' :: 'l' :: rest => some (Json.jnull, rest)
    | 't' :: 'r' :: 'u' :: 'e' :: rest => some (Json.jbool true, rest)
    | 'f' :: 'a' :: 'l' :: 's' :: 'e' :: rest => some (Json.jbool false, rest)
    | '"' :: rest =>
      (parseJsonStr fuel rest []).map (fun sr => (Json.jstr sr.1, sr.2))
    | '[' :: rest =>
      match skipWs rest with
      | ']' :: r2 => some (Json.jarr [], r2)
      | _ => (parseJsonArr fuel rest).map (fun er => (Json.jarr er.1, er.2))
    | '{' :: rest =>
      match skipWs rest with
      | '}' :: r2 => some (Json.jobj [], r2)
      | _ => (parseJsonObj fuel rest).map (fun fr => (Json.jobj fr.1, fr.2))
    | c :: rest =>
      if c = '-' ∨ isDigitChar c then parseJsonNum (c :: rest) else none
    | [] => none

/-- Comma-separated JSON values up to the closing bracket. -/
def parseJsonArr : Nat → List Char → Option (List Json × List Char)
  | 0, _ => none
  | fuel + 1, l =>
    (parseJsonVal fuel l).bind (fun vr =>
      match skipWs vr.2 with
      | ',' :: r2 => (parseJsonArr fuel r2).map (fun er => (vr.1 :: er.1, er.2))
      | ']' :: r2 => some ([vr.1], r2)
      | _ => none)

/-- Comma-separated `"key": value` pairs up to the closing brace. -/
def parseJsonObj : Nat → List Char → Option (List (String × Json) × List Char)
  | 0, _ => none
  | fuel + 1, l =>
    match skipWs l with
    | '"' :: rest =>
      (parseJsonStr fuel rest []).bind (fun kr =>
        match skipWs kr.2 with
        | ':' :: r2 =>
          (parseJsonVal fuel r2).bind (fun vr =>
            match skipWs vr.2 with
            | ',' :: r4 =>
              (parseJsonObj fuel r4).map (fun fr => ((kr.1, vr.1) :: fr.1, fr.2))
            | '}' :: r4 => some ([(kr.1, vr.1)], r4)
            | _ => none)
        | _ => none)
    | _ => none

/-- JSON string body after the opening quote, with the common escapes. -/
def parseJsonStr : Nat → List Char → List Char → Option (String × List Char)
  | 0, _, _ => none
  | fuel + 1, l, acc =>
    match l with
    | [] => none
    | '"' :: rest => some (String.mk acc.reverse, rest)
    | '\\' :: c :: rest =>
      match c with
      | '"' => parseJsonStr fuel rest ('"' :: acc)
      | '\\' => parseJsonStr fuel rest ('\\' :: acc)
      | '/' => parseJsonStr fuel rest ('/' :: acc)
      | 'n' => parseJsonStr fuel rest ('\n' :: acc)
      | 't' => parseJsonStr fuel rest ('\t' :: acc)
      | 'r' => parseJsonStr fuel rest ('\r' :: acc)
      | 'b' => parseJsonStr fuel rest (Char.ofNat 8 :: acc)
      | 'f' => parseJsonStr fuel rest (Char.ofNat 12 :: acc)
      | _ => none
    | '\\' :: [] => none
    | c :: rest => parseJsonStr fuel rest (c :: acc)

end

/-- Modelled from the spec: strict `JSON.parse` of a whole string — parse
one value and require that only whitespace remains. -/
def jsonParse (s : String) : Option Json :=
  (parseJsonVal (2 * s.length + 2) s.toList).bind (fun vr =>
    if skipWs vr.2 = [] then some vr.1 else none)

/-- Typed values a parsed configuration entry can hold. -/
inductive EnvValue where
  | vStr : String → EnvValue
  | vBool : Bool → EnvValue
  | vNum : Rat → EnvValue
  | vJson : Json → EnvValue

/-- Modelled from the spec: the `coercePrimitive` collaborator from the
external `zyx-system` package — `true`/`false` become booleans,
integer/decimal numeric literals become numbers, everything else (the empty
string included) stays a string. -/
def coercePrimitive (s : String) : EnvValue :=
  if s = "true" then EnvValue.vBool true
  else if s = "false" then EnvValue.vBool false
  else
    match parseJsonNum s.toList with
    | some (Json.jnum q, []) => EnvValue.vNum q
    | _ => EnvValue.vStr s

/-- Value classification in `loadEnvFile`: JSON-like values go through the
strict JSON parse with fallback to the literal trimmed string; all other
values go through the coercion collaborator. -/
def classifyValue (value : String) : EnvValue :=
  if isJsonLike value then
    match jsonParse value with
    | some j => EnvValue.vJson j
    | none => EnvValue.vStr value
  else coercePrimitive value

/-- JavaScript object insertion: an existing key keeps its position and gets
the new value; a new key is appended. -/
def insertAssoc (l : List (String × EnvValue)) (k : String) (v : EnvValue) :
    List (String × EnvValue) :=
  if l.any (fun kv => kv.1 = k) then
    l.map (fun kv => if kv.1 = k then (k, v) else kv)
  else l ++ [(k, v)]

/-- Per-line behaviour of the `loadEnvFile` parsing loop: trim, skip blank
and `#`-comment lines, split at every `=`, require a non-empty name, re-join
the remaining segments with `=`, strip the inline comment, trim, classify. -/
def parseEnvLine (line : String) : Option (String × EnvValue) :=
  let trimmed := jsTrim line
  if trimmed = "" then none
  else if strStartsWith trimmed '#' then none
  else
    match jsSplit '=' trimmed with
    | [] => none
    | name :: rest =>
      if name = "" then none
      else
        let key := jsTrim name
        let value := jsTrim (stripInlineCommentStr (String.intercalate "=" rest))
        some (key, classifyValue value)

/-- The `rawValues` object built by `loadEnvFile` from the raw text: lines
split on `/\r?\n/`, each line parsed, later keys overwriting earlier
ones. -/
def parseEnvText (raw : String) : List (String × EnvValue) :=
  (jsSplitLines raw).foldl (fun acc line =>
    match parseEnvLine line with
    | some kv => insertAssoc acc kv.1 kv.2
    | none => acc) []

/-- C4: the `loadEnvFile` parser on the spec's example lines — a number with
an inline comment, a boolean, a parsed JSON object, a value containing
`=`, a comment line, a blank line — plus the general JSON-like fallback:
when strict JSON parse fails, the literal trimmed string is stored. -/
theorem loadEnvFile_parser_cases :
    parseEnvText "PORT=8080 # comment" = [("PORT", EnvValue.vNum 8080)] ∧
    parseEnvText "FLAG=true" = [("FLAG", EnvValue.vBool true)] ∧
    parseEnvText "DATA=\x7b\"a\":1\x7d" =
      [("DATA", EnvValue.vJson (Json.jobj [("a", Json.jnum 1)]))] ∧
    parseEnvText "NAME=hello=world" = [("NAME", EnvValue.vStr "hello=world")] ∧
    parseEnvText "# comment" = [] ∧
    parseEnvText "" = [] ∧
    (∀ v, isJsonLike v = true → jsonParse v = none →
      classifyValue v = EnvValue.vStr v) ∧
    parseEnvText "X={bad}" = [("X", EnvValue.vStr "{bad}")] := by
  refine ⟨rfl, rfl, rfl, rfl, rfl, rfl, ?_, rfl⟩
  intro v hlike hfail
  unfold classifyValue
  rw [if_pos hlike, hfail]

/-- Witness for the C4 theorem's fallback conjunct at a concrete JSON-like
but unparsable value. -/
theorem loadEnvFile_parser_cases_witness :
    classifyValue "{bad}" = EnvValue.vStr "{bad}" :=
  loadEnvFile_parser_cases.2.2.2.2.2.2.1 "{bad}" rfl rfl

/-! ### The multi-file loader (`loadEnvFiles.js`)

Glob expansion is performed by the external `glob` package; the model takes
the expanded file list directly, together with the pattern (used only in the
no-match error message).  The per-file loader is abstract (`loadOne`),
standing for `loadEnvFile`, and receives the options object exactly as the
source forwards it. -/

/-- The options object of `loadEnvFiles` with the two flags its JSDoc
documents. -/
structure LoadOptions where
  verbose : Bool := false
  suppressErrors : Bool := false

/-- The `for (const file of files)` loop of `loadEnvFiles`: load each file
in order, pushing results; the `catch` block re-throws the original error
unconditionally, so the first failure aborts the loop. -/
def loadEnvFilesLoop {α : Type} (loadOne : String → LoadOptions → Except String α)
    (options : LoadOptions) : List String → Except String (List α)
  | [] => Except.ok []
  | f :: rest =>
    match loadOne f options with
    | Except.error e => Except.error e
    | Except.ok c =>
      match loadEnvFilesLoop loadOne options rest with
      | Except.ok cs => Except.ok (c :: cs)
      | Except.error e => Except.error e

/-- `loadEnvFiles(filemask, encryptKey, schema, options)`: throw the
no-match error when the expanded list is empty, otherwise run the loop. -/
def loadEnvFiles {α : Type} (filemask : String) (files : List String)
    (loadOne : String → LoadOptions → Except String α) (options : LoadOptions) :
    Except String (List α) :=
  if files = [] then
    Except.error ("No environment files matched pattern: " ++ filemask)
  else loadEnvFilesLoop loadOne options files

theorem loadEnvFilesLoop_first_error {α : Type}
    (loadOne : String → LoadOptions → Except String α) (options : LoadOptions) :
    ∀ (pre : List String) (f : String) (post : List String) (e : String),
      (∀ g ∈ pre, ∃ c, loadOne g options = Except.ok c) →
      loadOne f options = Except.error e →
      loadEnvFilesLoop loadOne options (pre ++ f :: post) = Except.error e := by
  intro pre
  induction pre with
  | nil =>
    intro f post e _ hf
    simp only [List.nil_append, loadEnvFilesLoop, hf]
  | cons g pre2 ih =>
    intro f post e hpre hf
    obtain ⟨c, hc⟩ := hpre g (by simp)
    simp only [List.cons_append, loadEnvFilesLoop, hc, List.append_eq]
    rw [ih f post e (fun g2 hg2 => hpre g2 (by simp [hg2])) hf]

theorem loadEnvFilesLoop_all_ok {α : Type}
    (loadOne : String → LoadOptions → Except String α) (options : LoadOptions) :
    ∀ (files : List String) (res : String → α),
      (∀ g ∈ files, loadOne g options = Except.ok (res g)) →
      loadEnvFilesLoop loadOne options files = Except.ok (files.map res) := by
  intro files
  induction files with
  | nil =>
    intro res _
    rfl
  | cons g rest ih =>
    intro res h
    simp only [loadEnvFilesLoop, h g (by simp),
      ih res (fun g2 hg2 => h g2 (by simp [hg2])), List.map_cons]

/-- C7: `loadEnvFiles` fails with the no-match error when the glob expansion
is empty; with a non-empty expansion it loads files in order, the first
per-file failure aborts the whole call with that file's error (whatever
comes after the failing file has no effect on the outcome), and on full
success it returns one result per matched file, in expansion order. -/
theorem loadEnvFiles_contract {α : Type} (filemask : String)
    (loadOne : String → LoadOptions → Except String α) (options : LoadOptions) :
    loadEnvFiles filemask [] loadOne options =
      Except.error ("No environment files matched pattern: " ++ filemask) ∧
    (∀ (pre : List String) (f : String) (post : List String) (e : String),
      (∀ g ∈ pre, ∃ c, loadOne g options = Except.ok c) →
      loadOne f options = Except.error e →
      loadEnvFiles filemask (pre ++ f :: post) loadOne options = Except.error e) ∧
    (∀ (files : List String) (res : String → α), files ≠ [] →
      (∀ g ∈ files, loadOne g options = Except.ok (res g)) →
      loadEnvFiles filemask files loadOne options = Except.ok (files.map res)) := by
  refine ⟨rfl, ?_, ?_⟩
  · intro pre f post e hpre hf
    unfold loadEnvFiles
    rw [if_neg (by simp)]
    exact loadEnvFilesLoop_first_error loadOne options pre f post e hpre hf
  · intro files res hne h
    unfold loadEnvFiles
    rw [if_neg hne]
    exact loadEnvFilesLoop_all_ok loadOne options files res h

/-- Witness for the C7 theorem with a concrete loader over three files where
the second fails, and a fully successful two-file run. -/
theorem loadEnvFiles_contract_witness :
    loadEnvFiles "conf/*.env" []
      (fun f _ => if f = "bad" then Except.error "boom" else Except.ok f)
      {} = Except.error "No environment files matched pattern: conf/*.env" ∧
    loadEnvFiles "conf/*.env" ["good", "bad", "later"]
      (fun f _ => if f = "bad" then Except.error "boom" else Except.ok f)
      {} = Except.error "boom" ∧
    loadEnvFiles "conf/*.env" ["a", "b"]
      (fun f _ => if f = "bad" then Except.error "boom" else Except.ok f)
      {} = Except.ok ["a", "b"] := by
  have h := loadEnvFiles_contract "conf/*.env"
    (fun f _ => if f = "bad" then Except.error "boom" else Except.ok f)
    ({} : LoadOptions)
  refine ⟨h.1, ?_, ?_⟩
  · refine h.2.1 ["good"] "bad" ["later"] "boom" ?_ rfl
    intro g hg
    rw [List.mem_singleton.mp hg]
    exact ⟨"good", rfl⟩
  · have h3 := h.2.2 ["a", "b"] (fun f => f) (by decide) ?_
    · simpa using h3
    · intro g hg
      rcases List.mem_cons.mp hg with h1 | h2
      · subst h1; rfl
      · rw [List.mem_singleton.mp h2]; rfl

/-- C10: for every options value — in particular one with `suppressErrors`
set to `true`, which the JSDoc says should make errors not throw — the
first per-file failure is still re-thrown to the caller; the option never
enables a continue-on-error mode. -/
theorem loadEnvFiles_ignores_suppressErrors {α : Type} (filemask : String)
    (loadOne : String → LoadOptions → Except String α) (verbose : Bool)
    (pre : List String) (f : String) (post : List String) (e : String)
    (hpre : ∀ g ∈ pre, ∃ c, loadOne g ⟨verbose, true⟩ = Except.ok c)
    (hf : loadOne f ⟨verbose, true⟩ = Except.error e) :
    loadEnvFiles filemask (pre ++ f :: post) loadOne ⟨verbose, true⟩ =
      Except.error e := by
  unfold loadEnvFiles
  rw [if_neg (by simp)]
  exact loadEnvFilesLoop_first_error loadOne ⟨verbose, true⟩ pre f post e hpre hf

/-- Witness for the C10 theorem: with `suppressErrors := true` the failure
of the first file still aborts the call. -/
theorem loadEnvFiles_ignores_suppressErrors_witness :
    loadEnvFiles "conf/*.env" ["bad", "later"]
      (fun f _ => if f = "bad" then Except.error "boom" else Except.ok f)
      ⟨false, true⟩ = Except.error "boom" := by
  refine loadEnvFiles_ignores_suppressErrors "conf/*.env"
    (fun f _ => if f = "bad" then Except.error "boom" else Except.ok f)
    false [] "bad" ["later"] "boom" ?_ rfl
  intro g hg
  simp at hg

/-! ### `loadEncryptKey` (`src/lib/loadEncryptKey.js` and the variant in
`part_002`)

The process environment's `ENCRYPT_KEY` entry and the filesystem (text
reads) are explicit arguments; the result pairs the returned key with the
updated `ENCRYPT_KEY` value. -/

/-- The final validation both versions share: `key = process.env.ENCRYPT_KEY;
if (!key || key.length !== 64) throw …` (a missing or empty value fails the
`!key` test, any other value fails unless it has 64 characters). -/
def validateEncryptKey (msg : String) (env1 : Option String) :
    Except String (String × Option String) :=
  match env1 with
  | some key =>
    if key.length = 64 then Except.ok (key, env1) else Except.error msg
  | none => Except.error msg

/-- JavaScript truthiness of a possibly-unset environment string. -/
def envTruthy (env : Option String) : Bool :=
  match env with
  | some s => s ≠ ""
  | none => false

/-- `loadEncryptKey` from `src/lib/loadEncryptKey.js`: only in
non-production does it read (and trim) the key file into `ENCRYPT_KEY`;
in production the branch body is absent, so the environment value is used
as-is.  Then the shared validation runs. -/
def loadEncryptKeyLib (isProduction : Bool) (env : Option String)
    (fsText : String → Option String) (filename : String) :
    Except String (String × Option String) :=
  validateEncryptKey
    "Encryption key used for configuration files is undefined or invalid"
    (if isProduction then env
     else
       match fsText filename with
       | some content => some (jsTrim content)
       | none => env)

/-- `loadEncryptKey` from `part_002`: in non-production always read the file
when it exists; in production prefer a truthy `ENCRYPT_KEY` and otherwise
fall back to reading (and trimming) the file.  Then the shared validation
runs. -/
def loadEncryptKeyV2 (isProduction : Bool) (env : Option String)
    (fsText : String → Option String) (filename : String) :
    Except String (String × Option String) :=
  validateEncryptKey
    "Encryption key is undefined or invalid. Expected a 64-character string."
    (if isProduction then
       if envTruthy env then env
       else
         match fsText filename with
         | some content => some (jsTrim content)
         | none => env
     else
       match fsText filename with
       | some content => some (jsTrim content)
       | none => env)

theorem validateEncryptKey_ok_length (msg : String) (env1 : Option String)
    (k : String) (env2 : Option String)
    (h : validateEncryptKey msg env1 = Except.ok (k, env2)) : k.length = 64 := by
  cases env1 with
  | none => cases h
  | some key =>
    have h2 : (if key.length = 64 then Except.ok (key, some key)
        else (Except.error msg : Except String (String × Option String))) =
        Except.ok (k, env2) := h
    by_cases hl : key.length = 64
    · rw [if_pos hl] at h2
      have hpair := Except.ok.inj h2
      have hk : key = k := congrArg Prod.fst hpair
      rw [← hk]
      exact hl
    · rw [if_neg hl] at h2
      cases h2

/-- C8 counterexample: in production mode with `ENCRYPT_KEY` unset, the
`src/lib/loadEncryptKey.js` version throws even though the key file exists
and holds a valid 64-character key — there is no file fallback in
production, contradicting the claimed behaviour. -/
theorem loadEncryptKeyLib_production_counterexample :
    loadEncryptKeyLib true none
      (fun f => if f = "_secret.key"
        then some (String.mk (List.replicate 64 'a')) else none)
      "_secret.key" =
      Except.error
        "Encryption key used for configuration files is undefined or invalid" ∧
    (jsTrim (String.mk (List.replicate 64 'a'))).length = 64 := by
  exact ⟨rfl, by decide⟩

/-- C8 (amended): the `part_002` variant behaves as claimed — in production
it prefers a set (truthy) `ENCRYPT_KEY` and falls back to reading and
trimming the key file when the value is unset, succeeding exactly when the
chosen source yields a 64-character string; the `src/lib` variant however
reads the file only in non-production — in production its result depends
only on the environment value, never on the file.  Both versions return a
64-character key whenever they succeed. -/
theorem loadEncryptKey_behaviour (env : Option String)
    (fsText : String → Option String) (fn : String) :
    (∀ fsA fsB : String → Option String,
      loadEncryptKeyLib true env fsA fn = loadEncryptKeyLib true env fsB fn) ∧
    (∀ key, env = some key → key ≠ "" →
      loadEncryptKeyV2 true env fsText fn =
        (if key.length = 64 then Except.ok (key, env)
         else Except.error
           "Encryption key is undefined or invalid. Expected a 64-character string.")) ∧
    (∀ content, env = none → fsText fn = some content →
      loadEncryptKeyV2 true env fsText fn =
        (if (jsTrim content).length = 64
         then Except.ok (jsTrim content, some (jsTrim content))
         else Except.error
           "Encryption key is undefined or invalid. Expected a 64-character string.")) ∧
    (∀ p k env2, loadEncryptKeyLib p env fsText fn = Except.ok (k, env2) →
      k.length = 64) ∧
    (∀ p k env2, loadEncryptKeyV2 p env fsText fn = Except.ok (k, env2) →
      k.length = 64) := by
  refine ⟨fun fsA fsB => rfl, ?_, ?_, ?_, ?_⟩
  · intro key henv hne
    subst henv
    unfold loadEncryptKeyV2
    have ht : envTruthy (some key) = true := by
      simp [envTruthy, hne]
    rw [if_pos rfl, if_pos ht]
    show (if key.length = 64 then Except.ok (key, some key)
      else (Except.error
        "Encryption key is undefined or invalid. Expected a 64-character string." :
        Except String (String × Option String))) = _
    by_cases hl : key.length = 64
    · rw [if_pos hl]
    · rw [if_neg hl]
  · intro content henv hfs
    subst henv
    unfold loadEncryptKeyV2
    have ht : envTruthy none = false := rfl
    rw [if_pos rfl, if_neg (by simp [ht]), hfs]
    show (if (jsTrim content).length = 64
      then Except.ok (jsTrim content, some (jsTrim content))
      else (Except.error
        "Encryption key is undefined or invalid. Expected a 64-character string." :
        Except String (String × Option String))) = _
    by_cases hl : (jsTrim content).length = 64
    · rw [if_pos hl]
    · rw [if_neg hl]
  · intro p k env2 h
    exact validateEncryptKey_ok_length _ _ k env2 h
  · intro p k env2 h
    exact validateEncryptKey_ok_length _ _ k env2 h

/-- Witness for the amended C8 theorem with a concrete environment,
filesystem and mode. -/
theorem loadEncryptKey_behaviour_witness :
    loadEncryptKeyV2 true none
      (fun f => if f = "_secret.key"
        then some (String.mk (List.replicate 64 'a')) else none)
      "_secret.key" =
      Except.ok (jsTrim (String.mk (List.replicate 64 'a')),
        some (jsTrim (String.mk (List.replicate 64 'a')))) ∧
    loadEncryptKeyV2 true (some (String.mk (List.replicate 64 'b')))
      (fun _ => none) "_secret.key" =
      Except.ok (String.mk (List.replicate 64 'b'),
        some (String.mk (List.replicate 64 'b'))) := by
  constructor
  · have h := (loadEncryptKey_behaviour none
      (fun f => if f = "_secret.key"
        then some (String.mk (List.replicate 64 'a')) else none)
      "_secret.key").2.2.1 (String.mk (List.replicate 64 'a')) rfl rfl
    rw [h, if_pos (by decide)]
  · have h := (loadEncryptKey_behaviour (some (String.mk (List.replicate 64 'b')))
      (fun _ => none) "_secret.key").2.1 (String.mk (List.replicate 64 'b'))
      rfl (by decide)
    rw [h, if_pos (by decide)]

/-! ### `createReadOnlyObject` (`createReadOnlyObject.js`)

JavaScript values are modelled with their property descriptors: each own
property carries its `writable` and `configurable` flags (`enumerable` is
`true` throughout this code), and each object carries its extensibility
flag (`true` for every freshly created `{}`/`[]`, since the code never
calls `Object.preventExtensions` or `Object.freeze`).  Property assignment,
deletion and creation follow the JavaScript semantics of those
descriptors. -/

mutual

/-- A JavaScript value: primitives, or an object/array with its
extensibility flag and ordered own properties. -/
inductive JSVal where
  | vnull : JSVal
  | vstr : String → JSVal
  | vnum : Rat → JSVal
  | vbool : Bool → JSVal
  | vobj : Bool → Bool → JSProps → JSVal

/-- Ordered own properties: key, `writable`, `configurable`, value. -/
inductive JSProps where
  | nil : JSProps
  | cons : String → Bool → Bool → JSVal → JSProps → JSProps

end

mutual

/-- `createReadOnlyObject(data)`: primitives are returned as-is; objects and
arrays are rebuilt as a fresh (hence extensible) object whose own
properties are defined with `writable: false, configurable: false`, values
processed recursively. -/
def createReadOnlyObject : JSVal → JSVal
  | JSVal.vnull => JSVal.vnull
  | JSVal.vstr s => JSVal.vstr s
  | JSVal.vnum q => JSVal.vnum q
  | JSVal.vbool b => JSVal.vbool b
  | JSVal.vobj isArr _ props => JSVal.vobj isArr true (croProps props)

/-- The `for (const key of Object.keys(data))` loop body of
`createReadOnlyObject`. -/
def croProps : JSProps → JSProps
  | JSProps.nil => JSProps.nil
  | JSProps.cons k _ _ v rest =>
    JSProps.cons k false false (createReadOnlyObject v) (croProps rest)

end

/-- Whether a property list has a key. -/
def propsHas : JSProps → String → Bool
  | JSProps.nil, _ => false
  | JSProps.cons k2 _ _ _ rest, k => k2 = k || propsHas rest k

/-- The `writable` and `configurable` flags of the first property with the
key, if present. -/
def propsFind : JSProps → String → Option (Bool × Bool)
  | JSProps.nil, _ => none
  | JSProps.cons k2 w c _ rest, k =>
    if k2 = k then some (w, c) else propsFind rest k

/-- Replace the value stored under a key (first match). -/
def propsReplace : JSProps → String → JSVal → JSProps
  | JSProps.nil, _, _ => JSProps.nil
  | JSProps.cons k2 w c v rest, k, x =>
    if k2 = k then JSProps.cons k2 w c x rest
    else JSProps.cons k2 w c v (propsReplace rest k x)

/-- Remove the property with the key (first match). -/
def propsRemove : JSProps → String → JSProps
  | JSProps.nil, _ => JSProps.nil
  | JSProps.cons k2 w c v rest, k =>
    if k2 = k then rest else JSProps.cons k2 w c v (propsRemove rest k)

/-- Append a fresh property at the end. -/
def propsAppend (props : JSProps) (k : String) (w c : Bool) (x : JSVal) : JSProps :=
  match props with
  | JSProps.nil => JSProps.cons k w c x JSProps.nil
  | JSProps.cons k2 w2 c2 v rest => JSProps.cons k2 w2 c2 v (propsAppend rest k w c x)

/-- JavaScript property assignment `o[k] = x` on an object: an existing
property is updated only if `writable`; a new property is created (with
default `writable`/`configurable` `true`) only if the object is extensible;
otherwise the assignment is rejected. -/
def setProp (o : JSVal) (k : String) (x : JSVal) : Option JSVal :=
  match o with
  | JSVal.vobj isArr ext props =>
    match propsFind props k with
    | some (w, _) =>
      if w then some (JSVal.vobj isArr ext (propsReplace props k x)) else none
    | none =>
      if ext then some (JSVal.vobj isArr ext (propsAppend props k true true x))
      else none
  | _ => none

/-- JavaScript `delete o[k]` on an object: an existing property can be
removed only if `configurable`; deleting an absent key succeeds without
change. -/
def deleteProp (o : JSVal) (k : String) : Option JSVal :=
  match o with
  | JSVal.vobj isArr ext props =>
    match propsFind props k with
    | some (_, c) =>
      if c then some (JSVal.vobj isArr ext (propsRemove props k)) else none
    | none => some o
  | _ => none

/-- Whether an object has an own property with the key. -/
def hasProp (o : JSVal) (k : String) : Bool :=
  match o with
  | JSVal.vobj _ _ props => propsHas props k
  | _ => false

mutual

/-- Deep read-only: every own property at every nesting depth is
non-writable and non-configurable. -/
def isDeepReadOnly : JSVal → Bool
  | JSVal.vnull => true
  | JSVal.vstr _ => true
  | JSVal.vnum _ => true
  | JSVal.vbool _ => true
  | JSVal.vobj _ _ props => isDeepReadOnlyProps props

/-- Deep read-only for a property list. -/
def isDeepReadOnlyProps : JSProps → Bool
  | JSProps.nil => true
  | JSProps.cons _ w c v rest =>
    !w && !c && isDeepReadOnly v && isDeepReadOnlyProps rest

end

mutual

theorem isDeepReadOnly_cro : ∀ v : JSVal, isDeepReadOnly (createReadOnlyObject v) = true
  | JSVal.vnull => rfl
  | JSVal.vstr _ => rfl
  | JSVal.vnum _ => rfl
  | JSVal.vbool _ => rfl
  | JSVal.vobj _ _ props => by
    simp only [createReadOnlyObject, isDeepReadOnly]
    exact isDeepReadOnlyProps_cro props

theorem isDeepReadOnlyProps_cro :
    ∀ props : JSProps, isDeepReadOnlyProps (croProps props) = true
  | JSProps.nil => rfl
  | JSProps.cons _ _ _ v rest => by
    simp only [croProps, isDeepReadOnlyProps, Bool.not_false, Bool.true_and,
      Bool.and_eq_true]
    exact ⟨isDeepReadOnly_cro v, isDeepReadOnlyProps_cro rest⟩

end

theorem propsFind_readonly :
    ∀ (props : JSProps) (k : String) (w c : Bool),
      isDeepReadOnlyProps props = true → propsFind props k = some (w, c) →
      w = false ∧ c = false
  | JSProps.nil, _, _, _ => by
    intro _ h
    cases h
  | JSProps.cons k2 w2 c2 v rest, k, w, c => by
    intro hro hf
    simp only [isDeepReadOnlyProps, Bool.and_eq_true, Bool.not_eq_true'] at hro
    simp only [propsFind] at hf
    by_cases hk : k2 = k
    · rw [if_pos hk] at hf
      have hpair := Option.some.inj hf
      have hw : w2 = w := congrArg Prod.fst hpair
      have hc : c2 = c := congrArg Prod.snd hpair
      exact ⟨hw ▸ hro.1.1.1, hc ▸ hro.1.1.2⟩
    · rw [if_neg hk] at hf
      exact propsFind_readonly rest k w c hro.2 hf

theorem propsFind_isSome_of_has :
    ∀ (props : JSProps) (k : String), propsHas props k = true →
      ∃ w c, propsFind props k = some (w, c)
  | JSProps.nil, _ => by
    intro h
    cases h
  | JSProps.cons k2 w2 c2 v rest, k => by
    intro h
    simp only [propsHas, Bool.or_eq_true, decide_eq_true_eq] at h
    by_cases hk : k2 = k
    · exact ⟨w2, c2, by simp only [propsFind, if_pos hk]⟩
    · obtain ⟨w, c, hf⟩ := propsFind_isSome_of_has rest k (by
        rcases h with h1 | h2
        · exact absurd h1 hk
        · exact h2)
      exact ⟨w, c, by simp only [propsFind, if_neg hk]; exact hf⟩

theorem propsFind_eq_none_of_not_has :
    ∀ (props : JSProps) (k : String), propsHas props k = false →
      propsFind props k = none
  | JSProps.nil, _ => fun _ => rfl
  | JSProps.cons k2 w2 c2 v rest, k => by
    intro h
    simp only [propsHas, Bool.or_eq_false_iff, decide_eq_false_iff_not] at h
    simp only [propsFind, if_neg h.1]
    exact propsFind_eq_none_of_not_has rest k h.2

theorem propsHas_append :
    ∀ (props : JSProps) (k : String) (w c : Bool) (x : JSVal),
      propsHas (propsAppend props k w c x) k = true
  | JSProps.nil, k, w, c, x => by simp [propsAppend, propsHas]
  | JSProps.cons k2 w2 c2 v rest, k, w, c, x => by
    simp only [propsAppend, propsHas, Bool.or_eq_true]
    exact Or.inr (propsHas_append rest k w c x)

/-- C9 counterexample: the snapshot `createReadOnlyObject({a: 1})` is left
extensible (the code never freezes the fresh object), so assigning a brand
new field `b` succeeds and the snapshot observed afterwards has changed —
"any attempt to add a field is rejected" fails. -/
theorem createReadOnlyObject_add_field_counterexample :
    setProp
      (createReadOnlyObject
        (JSVal.vobj false true (JSProps.cons "a" true true (JSVal.vnum 1) JSProps.nil)))
      "b" (JSVal.vnum 2) =
      some (JSVal.vobj false true
        (JSProps.cons "a" false false (JSVal.vnum 1)
          (JSProps.cons "b" true true (JSVal.vnum 2) JSProps.nil))) ∧
    setProp
      (createReadOnlyObject
        (JSVal.vobj false true (JSProps.cons "a" true true (JSVal.vnum 1) JSProps.nil)))
      "b" (JSVal.vnum 2) ≠ none := by
  constructor
  · rfl
  · intro h
    rw [show setProp
      (createReadOnlyObject
        (JSVal.vobj false true (JSProps.cons "a" true true (JSVal.vnum 1) JSProps.nil)))
      "b" (JSVal.vnum 2) =
      some (JSVal.vobj false true
        (JSProps.cons "a" false false (JSVal.vnum 1)
          (JSProps.cons "b" true true (JSVal.vnum 2) JSProps.nil))) from rfl] at h
    cases h

/-- C9 (amended): the snapshot built by `createReadOnlyObject` is deeply
read-only — every own property at every nesting depth is non-writable and
non-configurable, so on any deeply-read-only value reassigning or deleting
an existing field is rejected; but the snapshot objects remain extensible
(the code never freezes them), so adding a brand new field succeeds. -/
theorem createReadOnlyObject_deep_readonly (data : JSVal) (k : String) (x : JSVal) :
    isDeepReadOnly (createReadOnlyObject data) = true ∧
    (∀ v, isDeepReadOnly v = true → hasProp v k = true →
      setProp v k x = none ∧ deleteProp v k = none) ∧
    (∀ isArr ext props,
      hasProp (createReadOnlyObject (JSVal.vobj isArr ext props)) k = false →
      setProp (createReadOnlyObject (JSVal.vobj isArr ext props)) k x =
        some (JSVal.vobj isArr true (propsAppend (croProps props) k true true x)) ∧
      hasProp (JSVal.vobj isArr true (propsAppend (croProps props) k true true x)) k =
        true) := by
  refine ⟨isDeepReadOnly_cro data, ?_, ?_⟩
  · intro v hro hk
    cases v with
    | vobj isArr ext props =>
      simp only [hasProp] at hk
      simp only [isDeepReadOnly] at hro
      obtain ⟨w, c, hf⟩ := propsFind_isSome_of_has props k hk
      obtain ⟨hw, hc⟩ := propsFind_readonly props k w c hro hf
      constructor
      · simp only [setProp, hf, hw]
        rfl
      · simp only [deleteProp, hf, hc]
        rfl
    | vnull => cases hk
    | vstr s => cases hk
    | vnum q => cases hk
    | vbool b => cases hk
  · intro isArr ext props hnone
    simp only [createReadOnlyObject, hasProp] at hnone ⊢
    have hfind := propsFind_eq_none_of_not_has (croProps props) k hnone
    constructor
    · simp only [setProp, hfind]
      rfl
    · exact propsHas_append (croProps props) k true true x

/-- Witness for the amended C9 theorem at a concrete nested object. -/
theorem createReadOnlyObject_deep_readonly_witness :
    isDeepReadOnly
      (createReadOnlyObject
        (JSVal.vobj false true (JSProps.cons "a" true true
          (JSVal.vobj false true (JSProps.cons "c" true true (JSVal.vnum 3) JSProps.nil))
          JSProps.nil))) = true ∧
    setProp
      (createReadOnlyObject
        (JSVal.vobj false true (JSProps.cons "a" true true
          (JSVal.vobj false true (JSProps.cons "c" true true (JSVal.vnum 3) JSProps.nil))
          JSProps.nil)))
      "a" (JSVal.vnum 9) = none ∧
    deleteProp
      (createReadOnlyObject
        (JSVal.vobj false true (JSProps.cons "a" true true
          (JSVal.vobj false true (JSProps.cons "c" true true (JSVal.vnum 3) JSProps.nil))
          JSProps.nil)))
      "a" = none := by
  have h := createReadOnlyObject_deep_readonly
    (JSVal.vobj false true (JSProps.cons "a" true true
      (JSVal.vobj false true (JSProps.cons "c" true true (JSVal.vnum 3) JSProps.nil))
      JSProps.nil)) "a" (JSVal.vnum 9)
  have h2 := h.2.1 _ h.1 (by rfl)
  exact ⟨h.1, h2.1, h2.2⟩
